import Mathlib

/-!
# Verification of the hand-written lexer `p2/lexer.c`

Shallow embedding of the scanning engine of `lexer.c` (cursor, recognizers,
keyword resolution, driver) followed by theorems about it.

Modelling conventions
* A C `char` is a natural number (its byte value); `'\0'` is `0`.
* A C string is the list of its bytes; the terminating NUL is implicit, so
  reading index `i` of a string `s` is `s.getD i 0`.
* `int` fields (`current_pos`, `line`, `column`, `source_len`) only ever grow
  by one; they are natural numbers, which is exact for sources shorter than
  `2^31` bytes.
* `malloc` is assumed to succeed (the failure branches call `exit`), and the
  diagnostics written to `stderr` are not part of the model.
* A `while` loop whose body is `advance` is a recursion on a fuel argument;
  the fuel handed in by the callers is `source_len - current_pos + 1`, and the
  theorems `advance_while_exit` and `skip_whitespace_exit` below show that
  this is always enough for the loop to leave through its condition.
* The indices at which `advance` and `peek` read the source are returned by
  the functions named `..._reads`, which follow the control flow of the
  functions they are named after.
-/

namespace Lexer2

/-! ## 1. Token kinds, tokens, lexer state -/

/-- Token kinds, the `TokenType` enumeration of `lexer.c`. -/
inductive TokenType where
  | TOKEN_FUNC | TOKEN_IF | TOKEN_ELSE | TOKEN_WHILE | TOKEN_BREAK
  | TOKEN_INT | TOKEN_CHAR
  | TOKEN_ASSIGN | TOKEN_SEMICOLON | TOKEN_LPAREN | TOKEN_RPAREN
  | TOKEN_LBRACE | TOKEN_RBRACE | TOKEN_COMMA
  | TOKEN_PLUS | TOKEN_MINUS | TOKEN_MULTIPLY | TOKEN_DIVIDE
  | TOKEN_AND | TOKEN_OR
  | TOKEN_NE | TOKEN_GT | TOKEN_LT | TOKEN_EQ | TOKEN_LE | TOKEN_GE
  | TOKEN_NUMBER | TOKEN_STRING_LITERAL
  | TOKEN_IDENTIFIER
  | TOKEN_EOF | TOKEN_ERROR
  deriving DecidableEq, Repr

open TokenType

/-- The `Token` struct: `value` is `none` for a `NULL` lexeme. -/
structure Token where
  type : TokenType
  value : Option (List Nat)
  line : Nat
  column : Nat
  deriving DecidableEq, Repr

/-- The `Lexer` struct. -/
structure Lexer where
  source_code : List Nat
  current_pos : Nat
  current_char : Nat
  line : Nat
  column : Nat
  source_len : Nat
  deriving DecidableEq, Repr

/-! ## 2. C library functions used by the lexer -/

/-- Bytes of a string literal (used to write C string constants). -/
def bytes (s : String) : List Nat := s.toList.map Char.toNat

/-- The C string held in a buffer: the bytes before the first NUL. -/
def cstr (buf : List Nat) : List Nat := buf.takeWhile (fun c => c != 0)

/-- C `strlen`. -/
def strlen (s : List Nat) : Nat := (cstr s).length

/-- The `n` bytes `strncpy(dst, src + start, n)` reads from `src`. -/
def strncpy (src : List Nat) (start n : Nat) : List Nat := (src.drop start).take n

/-- C `isspace` in the "C" locale: space, `\t`, `\n`, `\v`, `\f`, `\r`. -/
def isspace (c : Nat) : Bool := c == 32 || (9 ≤ c && c ≤ 13)

/-- C `isdigit`. -/
def isdigit (c : Nat) : Bool := 48 ≤ c && c ≤ 57

/-- C `isalpha` in the "C" locale. -/
def isalpha (c : Nat) : Bool := (65 ≤ c && c ≤ 90) || (97 ≤ c && c ≤ 122)

/-- C `isalnum` in the "C" locale. -/
def isalnum (c : Nat) : Bool := isalpha c || isdigit c

/-! ## 3. Cursor -/

/-- Source function `advance`. -/
def advance (lexer : Lexer) : Lexer :=
  let pos := lexer.current_pos + 1
  { lexer with
    current_pos := pos
    column := lexer.column + 1
    current_char :=
      if pos < lexer.source_len then lexer.source_code.getD pos 0 else 0 }

/-- Source function `peek`. -/
def peek (lexer : Lexer) (offset : Nat) : Nat :=
  let peek_pos := lexer.current_pos + offset
  if peek_pos < lexer.source_len then lexer.source_code.getD peek_pos 0 else 0

/-- Fuel that lets an `advance` loop started in `lexer` run to its exit. -/
def loop_fuel (lexer : Lexer) : Nat := lexer.source_len - lexer.current_pos + 1

/-- The loop of `skip_whitespace`:
`while (c != '\0' && isspace(c)) { if (c == '\n') { line++; column = 0; } advance(lexer); }`. -/
def skip_whitespace_loop : Nat → Lexer → Lexer
  | 0, lexer => lexer
  | fuel + 1, lexer =>
    if lexer.current_char ≠ 0 ∧ isspace lexer.current_char = true then
      let lexer1 :=
        if lexer.current_char = 10 then
          { lexer with line := lexer.line + 1, column := 0 }
        else lexer
      skip_whitespace_loop fuel (advance lexer1)
    else lexer

/-- Source function `skip_whitespace`. -/
def skip_whitespace (lexer : Lexer) : Lexer :=
  skip_whitespace_loop (loop_fuel lexer) lexer

/-- The loop `while (c != '\0' && cond(c)) advance(lexer);` shared by
`read_number`, `read_string` and `read_identifier_or_keyword`. -/
def advance_while (cond : Nat → Bool) : Nat → Lexer → Lexer
  | 0, lexer => lexer
  | fuel + 1, lexer =>
    if lexer.current_char ≠ 0 ∧ cond lexer.current_char = true then
      advance_while cond fuel (advance lexer)
    else lexer

/-! ## 4. Tokens and recognizers -/

/-- Source function `create_token`; `strdup` keeps the C string of `value`. -/
def create_token (type : TokenType) (value : Option (List Nat)) (line column : Nat) : Token :=
  { type := type, value := value.map cstr, line := line, column := column }

/-- Source function `read_number`. -/
def read_number (lexer : Lexer) : Token × Lexer :=
  let start_column := lexer.column
  let start_pos := lexer.current_pos
  let lexer1 := advance_while isdigit (loop_fuel lexer) lexer
  let length := lexer1.current_pos - start_pos
  let num_str := strncpy lexer1.source_code start_pos length
  (create_token TOKEN_NUMBER (some num_str) lexer1.line start_column, lexer1)

/-- Source function `read_string`. -/
def read_string (lexer : Lexer) : Token × Lexer :=
  let start_column := lexer.column
  let lexer1 := advance lexer
  let start_pos := lexer1.current_pos
  let lexer2 := advance_while (fun c => c != 39) (loop_fuel lexer1) lexer1
  if lexer2.current_char = 0 then
    (create_token TOKEN_ERROR (some (bytes "String nao terminada")) lexer2.line start_column,
      lexer2)
  else
    let length := lexer2.current_pos - start_pos
    let str_value := [39] ++ strncpy lexer2.source_code start_pos length ++ [39]
    let lexer3 := advance lexer2
    (create_token TOKEN_STRING_LITERAL (some str_value) lexer3.line start_column, lexer3)

/-- Source function `get_keyword_type`. -/
def get_keyword_type (identifier : List Nat) : TokenType :=
  if identifier = bytes "func" then TOKEN_FUNC
  else if identifier = bytes "if" then TOKEN_IF
  else if identifier = bytes "else" then TOKEN_ELSE
  else if identifier = bytes "while" then TOKEN_WHILE
  else if identifier = bytes "break" then TOKEN_BREAK
  else if identifier = bytes "int" then TOKEN_INT
  else if identifier = bytes "char" then TOKEN_CHAR
  else TOKEN_IDENTIFIER

/-- Source function `read_identifier_or_keyword`. -/
def read_identifier_or_keyword (lexer : Lexer) : Token × Lexer :=
  let start_column := lexer.column
  let start_pos := lexer.current_pos
  let lexer1 := advance_while (fun c => isalnum c || c == 95) (loop_fuel lexer) lexer
  let length := lexer1.current_pos - start_pos
  let id_str := cstr (strncpy lexer1.source_code start_pos length)
  let type := get_keyword_type id_str
  (create_token type (some id_str) lexer1.line start_column, lexer1)

/-! ## 5. Driver -/

/-- Source function `get_next_token`.  Every path through the body of the
outer `while` ends in `break` or `return`, so the loop is a conditional. -/
def get_next_token (lexer0 : Lexer) : Token × Lexer :=
  if lexer0.current_char ≠ 0 then
    let lexer := skip_whitespace lexer0
    if lexer.current_char = 0 then
      (create_token TOKEN_EOF none lexer.line lexer.column, lexer)
    else
      let current_line := lexer.line
      let current_column := lexer.column
      let next_char := peek lexer 1
      let c := lexer.current_char
      if c = 61 ∧ next_char = 61 then
        (create_token TOKEN_EQ (some (bytes "==")) current_line current_column,
          advance (advance lexer))
      else if c = 33 ∧ next_char = 61 then
        (create_token TOKEN_NE (some (bytes "!=")) current_line current_column,
          advance (advance lexer))
      else if c = 38 ∧ next_char = 38 then
        (create_token TOKEN_AND (some (bytes "&&")) current_line current_column,
          advance (advance lexer))
      else if c = 124 ∧ next_char = 124 then
        (create_token TOKEN_OR (some (bytes "||")) current_line current_column,
          advance (advance lexer))
      else if c = 60 ∧ next_char = 61 then
        (create_token TOKEN_LE (some (bytes "<=")) current_line current_column,
          advance (advance lexer))
      else if c = 62 ∧ next_char = 61 then
        (create_token TOKEN_GE (some (bytes ">=")) current_line current_column,
          advance (advance lexer))
      else if c = 61 then
        (create_token TOKEN_ASSIGN (some (bytes "=")) current_line current_column, advance lexer)
      else if c = 59 then
        (create_token TOKEN_SEMICOLON (some (bytes ";")) current_line current_column,
          advance lexer)
      else if c = 40 then
        (create_token TOKEN_LPAREN (some (bytes "(")) current_line current_column, advance lexer)
      else if c = 41 then
        (create_token TOKEN_RPAREN (some (bytes ")")) current_line current_column, advance lexer)
      else if c = 123 then
        (create_token TOKEN_LBRACE (some (bytes "\x7b")) current_line current_column,
          advance lexer)
      else if c = 125 then
        (create_token TOKEN_RBRACE (some (bytes "\x7d")) current_line current_column,
          advance lexer)
      else if c = 44 then
        (create_token TOKEN_COMMA (some (bytes ",")) current_line current_column, advance lexer)
      else if c = 43 then
        (create_token TOKEN_PLUS (some (bytes "+")) current_line current_column, advance lexer)
      else if c = 45 then
        (create_token TOKEN_MINUS (some (bytes "-")) current_line current_column, advance lexer)
      else if c = 42 then
        (create_token TOKEN_MULTIPLY (some (bytes "*")) current_line current_column,
          advance lexer)
      else if c = 47 then
        (create_token TOKEN_DIVIDE (some (bytes "/")) current_line current_column, advance lexer)
      else if c = 60 then
        (create_token TOKEN_LT (some (bytes "<")) current_line current_column, advance lexer)
      else if c = 62 then
        (create_token TOKEN_GT (some (bytes ">")) current_line current_column, advance lexer)
      else if c = 39 then
        read_string lexer
      else if isdigit c = true then
        read_number lexer
      else if isalpha c = true ∨ c = 95 then
        read_identifier_or_keyword lexer
      else
        (create_token TOKEN_ERROR (some (bytes "Caractere desconhecido")) current_line
          current_column, advance lexer)
  else
    (create_token TOKEN_EOF none lexer0.line lexer0.column, lexer0)

/-- Source function `init_lexer`. -/
def init_lexer (source_code : List Nat) : Lexer :=
  { source_code := source_code
    current_pos := 0
    source_len := strlen source_code
    current_char := source_code.getD 0 0
    line := 1
    column := 1 }

/-! ## 6. Repeated calls of the driver -/

/-- The lexer state after `k` calls of `get_next_token`. -/
def lex_steps : Nat → Lexer → Lexer
  | 0, lexer => lexer
  | k + 1, lexer => lex_steps k (get_next_token lexer).2

/-- The token returned by call number `k` (counting from 0). -/
def nth_token (k : Nat) (lexer : Lexer) : Token :=
  (get_next_token (lex_steps k lexer)).1

/-- The tokens returned by `k` successive calls of `get_next_token`. -/
def tokens : Nat → Lexer → List Token
  | 0, _ => []
  | k + 1, lexer => (get_next_token lexer).1 :: tokens k (get_next_token lexer).2

/-- The kind and text of a token. -/
def kind_text (t : Token) : TokenType × Option (List Nat) := (t.type, t.value)

/-! ## 6b. Vocabulary of the specification and of the proofs -/

/-- The body of the `skip_whitespace` loop. -/
def skip_body (lx : Lexer) : Lexer :=
  advance (if lx.current_char = 10 then { lx with line := lx.line + 1, column := 0 } else lx)

/-- The two-character operators `==`, `!=`, `&&`, `||`, `<=`, `>=`: first
character, second character, kind. -/
def two_char_table : List (Nat × Nat × TokenType) :=
  [(61, 61, TOKEN_EQ), (33, 61, TOKEN_NE), (38, 38, TOKEN_AND), (124, 124, TOKEN_OR),
   (60, 61, TOKEN_LE), (62, 61, TOKEN_GE)]

/-- The one-character operators and punctuation `=`, `;`, `(`, `)`, `{`, `}`,
`,`, `+`, `-`, `*`, `/`, `<`, `>`: character, kind. -/
def one_char_table : List (Nat × TokenType) :=
  [(61, TOKEN_ASSIGN), (59, TOKEN_SEMICOLON), (40, TOKEN_LPAREN), (41, TOKEN_RPAREN),
   (123, TOKEN_LBRACE), (125, TOKEN_RBRACE), (44, TOKEN_COMMA), (43, TOKEN_PLUS),
   (45, TOKEN_MINUS), (42, TOKEN_MULTIPLY), (47, TOKEN_DIVIDE), (60, TOKEN_LT),
   (62, TOKEN_GT)]

/-- The cursor of `lx` is a position of the source `s`: the buffer and its
length are those of `s`, the offset is within bounds and the current character
is the byte at the offset (the sentinel at the end). -/
def Sync (s : List Nat) (lx : Lexer) : Prop :=
  lx.source_code = s ∧ lx.source_len = s.length ∧ lx.current_pos ≤ s.length ∧
    lx.current_char = s.getD lx.current_pos 0

/-- Offset of the last `'\n'` of `s` before offset `off`, if there is one. -/
def last_newline_before (s : List Nat) : Nat → Option Nat
  | 0 => none
  | off + 1 => if s.getD off 0 = 10 then some off else last_newline_before s off

/-- The 1-based line of offset `off` of `s`: one more than the number of
`'\n'` characters before `off`. -/
def spec_line (s : List Nat) (off : Nat) : Nat := 1 + (s.take off).count 10

/-- The 1-based column of offset `off` of `s`: `off` minus the offset of the
last `'\n'` before it, and `off + 1` when there is none. -/
def spec_column (s : List Nat) (off : Nat) : Nat :=
  match last_newline_before s off with
  | some i => off - i
  | none => off + 1

/-- Number of characters of `w` after its last `'\n'`; the length of `w` when
it has no `'\n'`. -/
def chars_after_last_newline (w : List Nat) : Nat :=
  (w.reverse.takeWhile (fun c => c != 10)).length

/-- The line and column of the cursor are those of its offset in `s`. -/
def PosOk (s : List Nat) (lx : Lexer) : Prop :=
  lx.line = spec_line s lx.current_pos ∧ lx.column = spec_column s lx.current_pos

/-- The cursor is a position of `s` and reports its true line and column. -/
def Tracked (s : List Nat) (lx : Lexer) : Prop := Sync s lx ∧ PosOk s lx

/-- The current character is the one the cursor offset designates: the byte
at `current_pos` inside the source, the sentinel from `source_len` on. -/
def CharAtPos (lx : Lexer) : Prop :=
  lx.current_char =
    if lx.current_pos < lx.source_len then lx.source_code.getD lx.current_pos 0 else 0

/-- The state `n` calls of `advance` after `lx`. -/
def jump (lx : Lexer) (n : Nat) : Lexer :=
  { lx with
    current_pos := lx.current_pos + n
    column := lx.column + n
    current_char :=
      if lx.current_pos + n < lx.source_len then lx.source_code.getD (lx.current_pos + n) 0
      else 0 }

/-- The reserved words with their kinds. -/
def keyword_table : List (List Nat × TokenType) :=
  [(bytes "func", TOKEN_FUNC), (bytes "if", TOKEN_IF), (bytes "else", TOKEN_ELSE),
   (bytes "while", TOKEN_WHILE), (bytes "break", TOKEN_BREAK), (bytes "int", TOKEN_INT),
   (bytes "char", TOKEN_CHAR)]

/-- Offset of the first character of the token that the next call of
`get_next_token` returns: the cursor offset reached by whitespace skipping. -/
def token_start (lx : Lexer) : Nat := (skip_whitespace lx).current_pos

/-- The spellings of the two-character operators: first and second
character. -/
def two_char_spellings : List (Nat × Nat) := two_char_table.map (fun t => (t.1, t.2.1))

/-- The characters of an identifier: the loop condition of
`read_identifier_or_keyword`, `isalnum(c) || c == '_'`. -/
def ident_char (c : Nat) : Bool := isalnum c || c == 95

/-- The longest run of identifier characters of `s` starting at offset `pos`. -/
def ident_run (s : List Nat) (pos : Nat) : List Nat := (s.drop pos).takeWhile ident_char

/-- The substring of `s` from offset `a` (included) to offset `b` (excluded). -/
def substring (s : List Nat) (a b : Nat) : List Nat := (s.drop a).take (b - a)

/-! ### Source reads of `advance` and `peek`

The functions below return the indices at which `source_code` is read by
`advance` and `peek` in the course of a call; they follow the control flow of
the functions they are named after. -/

/-- Index of `source_code` read by `advance(lexer)`: `current_pos + 1` when the
test `current_pos < source_len` made after the increment succeeds. -/
def advance_reads (lexer : Lexer) : List Nat :=
  if lexer.current_pos + 1 < lexer.source_len then [lexer.current_pos + 1] else []

/-- Index of `source_code` read by `peek(lexer, offset)`. -/
def peek_reads (lexer : Lexer) (offset : Nat) : List Nat :=
  if lexer.current_pos + offset < lexer.source_len then [lexer.current_pos + offset] else []

/-- Indices read by the `advance` calls of the `skip_whitespace` loop. -/
def skip_whitespace_loop_reads : Nat → Lexer → List Nat
  | 0, _ => []
  | fuel + 1, lexer =>
    if lexer.current_char ≠ 0 ∧ isspace lexer.current_char = true then
      let lexer1 :=
        if lexer.current_char = 10 then
          { lexer with line := lexer.line + 1, column := 0 }
        else lexer
      advance_reads lexer1 ++ skip_whitespace_loop_reads fuel (advance lexer1)
    else []

/-- Indices read during `skip_whitespace(lexer)`. -/
def skip_whitespace_reads (lexer : Lexer) : List Nat :=
  skip_whitespace_loop_reads (loop_fuel lexer) lexer

/-- Indices read by the `advance` calls of a loop
`while (c != '\0' && cond(c)) advance(lexer);`. -/
def advance_while_reads (cond : Nat → Bool) : Nat → Lexer → List Nat
  | 0, _ => []
  | fuel + 1, lexer =>
    if lexer.current_char ≠ 0 ∧ cond lexer.current_char = true then
      advance_reads lexer ++ advance_while_reads cond fuel (advance lexer)
    else []

/-- Indices read during `read_number(lexer)`. -/
def read_number_reads (lexer : Lexer) : List Nat :=
  advance_while_reads isdigit (loop_fuel lexer) lexer

/-- Indices read during `read_string(lexer)`: the `advance` over the opening
quote, the loop, and the `advance` over the closing quote when there is one. -/
def read_string_reads (lexer : Lexer) : List Nat :=
  let lexer1 := advance lexer
  let lexer2 := advance_while (fun c => c != 39) (loop_fuel lexer1) lexer1
  advance_reads lexer ++ advance_while_reads (fun c => c != 39) (loop_fuel lexer1) lexer1 ++
    (if lexer2.current_char = 0 then [] else advance_reads lexer2)

/-- Indices read during `read_identifier_or_keyword(lexer)`. -/
def read_identifier_or_keyword_reads (lexer : Lexer) : List Nat :=
  advance_while_reads (fun c => isalnum c || c == 95) (loop_fuel lexer) lexer

/-- Indices read by `advance` and `peek` during `get_next_token(lexer0)`:
whitespace skipping, the `peek(lexer, 1)`, then the branch taken.  The six
two-character tests, which all call `advance` twice, are one test here, and so
are the thirteen one-character cases of the `switch`, which all call `advance`
once. -/
def get_next_token_reads (lexer0 : Lexer) : List Nat :=
  if lexer0.current_char ≠ 0 then
    let lexer := skip_whitespace lexer0
    skip_whitespace_reads lexer0 ++
      (if lexer.current_char = 0 then []
       else
        let next_char := peek lexer 1
        let c := lexer.current_char
        peek_reads lexer 1 ++
          (if (c, next_char) ∈ two_char_spellings then
            advance_reads lexer ++ advance_reads (advance lexer)
           else if c ∈ one_char_table.map Prod.fst then advance_reads lexer
           else if c = 39 then read_string_reads lexer
           else if isdigit c = true then read_number_reads lexer
           else if isalpha c = true ∨ c = 95 then read_identifier_or_keyword_reads lexer
           else advance_reads lexer))
  else []

/-- Two lexer states that scan the same characters: `lx1` on the source
`w ++ s`, `lx2` on the source `s`, `lx1` being `length w` characters further.
Lines and columns are not compared. -/
def Shifted (w s : List Nat) (lx1 lx2 : Lexer) : Prop :=
  lx1.source_code = w ++ s ∧ lx2.source_code = s ∧
    lx1.source_len = w.length + s.length ∧ lx2.source_len = s.length ∧
    lx1.current_pos = w.length + lx2.current_pos ∧ lx1.current_char = lx2.current_char

/-! ## 7. Basic facts about the cursor -/

@[simp] theorem advance_source_code (lx : Lexer) : (advance lx).source_code = lx.source_code := rfl
@[simp] theorem advance_source_len (lx : Lexer) : (advance lx).source_len = lx.source_len := rfl
@[simp] theorem advance_line (lx : Lexer) : (advance lx).line = lx.line := rfl
@[simp] theorem advance_current_pos (lx : Lexer) :
    (advance lx).current_pos = lx.current_pos + 1 := rfl
@[simp] theorem advance_column (lx : Lexer) : (advance lx).column = lx.column + 1 := rfl
theorem advance_current_char (lx : Lexer) :
    (advance lx).current_char =
      if lx.current_pos + 1 < lx.source_len then lx.source_code.getD (lx.current_pos + 1) 0
      else 0 := rfl

theorem skip_whitespace_loop_succ (fuel : Nat) (lx : Lexer) :
    skip_whitespace_loop (fuel + 1) lx =
      if lx.current_char ≠ 0 ∧ isspace lx.current_char = true then
        skip_whitespace_loop fuel (skip_body lx)
      else lx := rfl

theorem advance_while_succ (cond : Nat → Bool) (fuel : Nat) (lx : Lexer) :
    advance_while cond (fuel + 1) lx =
      if lx.current_char ≠ 0 ∧ cond lx.current_char = true then
        advance_while cond fuel (advance lx)
      else lx := rfl

/-- Loop-invariant rule for the `advance` loops. -/
theorem advance_while_induct {P : Lexer → Prop} (cond : Nat → Bool)
    (hstep : ∀ lx, P lx → lx.current_char ≠ 0 → cond lx.current_char = true → P (advance lx)) :
    ∀ (fuel : Nat) (lx : Lexer), P lx → P (advance_while cond fuel lx) := by
  intro fuel
  induction fuel with
  | zero => intro lx h; exact h
  | succ f ih =>
    intro lx h
    rw [advance_while_succ]
    split_ifs with hc
    · exact ih _ (hstep lx h hc.1 hc.2)
    · exact h

/-- Loop-invariant rule for the `skip_whitespace` loop. -/
theorem skip_whitespace_loop_induct {P : Lexer → Prop}
    (hstep : ∀ lx, P lx → lx.current_char ≠ 0 → isspace lx.current_char = true →
      P (skip_body lx)) :
    ∀ (fuel : Nat) (lx : Lexer), P lx → P (skip_whitespace_loop fuel lx) := by
  intro fuel
  induction fuel with
  | zero => intro lx h; exact h
  | succ f ih =>
    intro lx h
    rw [skip_whitespace_loop_succ]
    split_ifs with hc
    · exact ih _ (hstep lx h hc.1 hc.2)
    · exact h

theorem advance_while_exit_aux (cond : Nat → Bool) :
    ∀ (fuel : Nat) (lx : Lexer),
      (lx.current_char = 0 ∨ lx.source_len - lx.current_pos + 1 ≤ fuel) →
      ¬ ((advance_while cond fuel lx).current_char ≠ 0 ∧
          cond (advance_while cond fuel lx).current_char = true) := by
  intro fuel
  induction fuel with
  | zero =>
    intro lx h
    rcases h with h | h
    · simp [advance_while, h]
    · omega
  | succ f ih =>
    intro lx h
    rw [advance_while_succ]
    split_ifs with hc
    · apply ih
      by_cases hp : lx.current_pos + 1 < lx.source_len
      · right
        rcases h with h | h
        · exact absurd h hc.1
        · simp only [advance_source_len, advance_current_pos]; omega
      · left
        simp [advance_current_char, hp]
    · exact hc

/-- The fuel given to the recognizer loops suffices: they end with their
condition false. -/
theorem advance_while_exit (cond : Nat → Bool) (lx : Lexer) :
    ¬ ((advance_while cond (loop_fuel lx) lx).current_char ≠ 0 ∧
        cond (advance_while cond (loop_fuel lx) lx).current_char = true) :=
  advance_while_exit_aux cond _ lx (Or.inr (le_refl _))

theorem skip_body_source_len (lx : Lexer) : (skip_body lx).source_len = lx.source_len := by
  unfold skip_body; split_ifs <;> rfl

theorem skip_body_source_code (lx : Lexer) : (skip_body lx).source_code = lx.source_code := by
  unfold skip_body; split_ifs <;> rfl

theorem skip_body_current_pos (lx : Lexer) :
    (skip_body lx).current_pos = lx.current_pos + 1 := by
  unfold skip_body; split_ifs <;> rfl

theorem skip_body_current_char (lx : Lexer) :
    (skip_body lx).current_char =
      if lx.current_pos + 1 < lx.source_len then lx.source_code.getD (lx.current_pos + 1) 0
      else 0 := by
  unfold skip_body; split_ifs <;> simp_all [advance_current_char]

theorem skip_whitespace_exit_aux :
    ∀ (fuel : Nat) (lx : Lexer),
      (lx.current_char = 0 ∨ lx.source_len - lx.current_pos + 1 ≤ fuel) →
      ¬ ((skip_whitespace_loop fuel lx).current_char ≠ 0 ∧
          isspace (skip_whitespace_loop fuel lx).current_char = true) := by
  intro fuel
  induction fuel with
  | zero =>
    intro lx h
    rcases h with h | h
    · simp [skip_whitespace_loop, h]
    · omega
  | succ f ih =>
    intro lx h
    rw [skip_whitespace_loop_succ]
    split_ifs with hc
    · apply ih
      by_cases hp : lx.current_pos + 1 < lx.source_len
      · right
        rcases h with h | h
        · exact absurd h hc.1
        · rw [skip_body_source_len, skip_body_current_pos]; omega
      · left
        simp [skip_body_current_char, hp]
    · exact hc

/-- The fuel given to `skip_whitespace` suffices: on return the current
character is the sentinel or not a whitespace character. -/
theorem skip_whitespace_exit (lx : Lexer) :
    ¬ ((skip_whitespace lx).current_char ≠ 0 ∧
        isspace (skip_whitespace lx).current_char = true) :=
  skip_whitespace_exit_aux _ lx (Or.inr (le_refl _))

/-- Nothing is skipped when the current character is not whitespace. -/
theorem skip_whitespace_id (lx : Lexer)
    (h : ¬ (lx.current_char ≠ 0 ∧ isspace lx.current_char = true)) :
    skip_whitespace lx = lx := by
  unfold skip_whitespace loop_fuel
  rw [skip_whitespace_loop_succ, if_neg h]

/-! ## 8. Case analysis of the driver -/

theorem advance_current_char_eq_peek (lx : Lexer) : (advance lx).current_char = peek lx 1 := rfl

theorem two_char_table_cases {a b : Nat} {ty : TokenType} (h : (a, b, ty) ∈ two_char_table) :
    (a = 61 ∧ b = 61 ∧ ty = TOKEN_EQ) ∨ (a = 33 ∧ b = 61 ∧ ty = TOKEN_NE) ∨
    (a = 38 ∧ b = 38 ∧ ty = TOKEN_AND) ∨ (a = 124 ∧ b = 124 ∧ ty = TOKEN_OR) ∨
    (a = 60 ∧ b = 61 ∧ ty = TOKEN_LE) ∨ (a = 62 ∧ b = 61 ∧ ty = TOKEN_GE) := by
  simpa [two_char_table] using h

theorem one_char_table_cases {a : Nat} {ty : TokenType} (h : (a, ty) ∈ one_char_table) :
    (a = 61 ∧ ty = TOKEN_ASSIGN) ∨ (a = 59 ∧ ty = TOKEN_SEMICOLON) ∨
    (a = 40 ∧ ty = TOKEN_LPAREN) ∨ (a = 41 ∧ ty = TOKEN_RPAREN) ∨
    (a = 123 ∧ ty = TOKEN_LBRACE) ∨ (a = 125 ∧ ty = TOKEN_RBRACE) ∨
    (a = 44 ∧ ty = TOKEN_COMMA) ∨ (a = 43 ∧ ty = TOKEN_PLUS) ∨
    (a = 45 ∧ ty = TOKEN_MINUS) ∨ (a = 42 ∧ ty = TOKEN_MULTIPLY) ∨
    (a = 47 ∧ ty = TOKEN_DIVIDE) ∨ (a = 60 ∧ ty = TOKEN_LT) ∨ (a = 62 ∧ ty = TOKEN_GT) := by
  simpa [one_char_table] using h

/-- Case analysis of `get_next_token`: a property holds of its result as soon
as it holds of the result of each branch, taken after whitespace skipping;
each branch may assume that the earlier tests of the dispatch failed. -/
theorem get_next_token_elim (lx0 : Lexer) (P : Token × Lexer → Prop)
    (h_eof : (skip_whitespace lx0).current_char = 0 →
      P (create_token TOKEN_EOF none (skip_whitespace lx0).line (skip_whitespace lx0).column,
        skip_whitespace lx0))
    (h_two : ∀ ty, ((skip_whitespace lx0).current_char, peek (skip_whitespace lx0) 1, ty) ∈
        two_char_table →
      P (create_token ty (some [(skip_whitespace lx0).current_char, peek (skip_whitespace lx0) 1])
          (skip_whitespace lx0).line (skip_whitespace lx0).column,
        advance (advance (skip_whitespace lx0))))
    (h_one : ∀ ty, ((skip_whitespace lx0).current_char, ty) ∈ one_char_table →
      (∀ ty2, ((skip_whitespace lx0).current_char, peek (skip_whitespace lx0) 1, ty2) ∉
        two_char_table) →
      P (create_token ty (some [(skip_whitespace lx0).current_char])
          (skip_whitespace lx0).line (skip_whitespace lx0).column,
        advance (skip_whitespace lx0)))
    (h_str : (skip_whitespace lx0).current_char = 39 → P (read_string (skip_whitespace lx0)))
    (h_num : isdigit (skip_whitespace lx0).current_char = true →
      P (read_number (skip_whitespace lx0)))
    (h_id : isalpha (skip_whitespace lx0).current_char = true ∨
        (skip_whitespace lx0).current_char = 95 →
      P (read_identifier_or_keyword (skip_whitespace lx0)))
    (h_err : (skip_whitespace lx0).current_char ≠ 0 →
      isspace (skip_whitespace lx0).current_char = false →
      (∀ ty2, ((skip_whitespace lx0).current_char, peek (skip_whitespace lx0) 1, ty2) ∉
        two_char_table) →
      (∀ ty, ((skip_whitespace lx0).current_char, ty) ∉ one_char_table) →
      (skip_whitespace lx0).current_char ≠ 39 →
      isdigit (skip_whitespace lx0).current_char = false →
      ¬ (isalpha (skip_whitespace lx0).current_char = true ∨
        (skip_whitespace lx0).current_char = 95) →
      P (create_token TOKEN_ERROR (some (bytes "Caractere desconhecido"))
          (skip_whitespace lx0).line (skip_whitespace lx0).column,
        advance (skip_whitespace lx0))) :
    P (get_next_token lx0) := by
  have hexit := skip_whitespace_exit lx0
  by_cases h0 : lx0.current_char = 0
  · have hid : skip_whitespace lx0 = lx0 := skip_whitespace_id lx0 (by simp [h0])
    rw [hid] at h_eof
    have : get_next_token lx0 = (create_token TOKEN_EOF none lx0.line lx0.column, lx0) := by
      simp [get_next_token, h0]
    rw [this]
    exact h_eof h0
  · unfold get_next_token
    rw [if_pos h0]
    generalize skip_whitespace lx0 = lx at *
    conv => zeta
    by_cases h1 : lx.current_char = 0
    · rw [if_pos h1]; exact h_eof h1
    rw [if_neg h1]
    by_cases n0 : lx.current_char = 61 ∧ peek lx 1 = 61
    · rw [if_pos n0]
      have := h_two TOKEN_EQ (by simp [two_char_table, n0.1, n0.2])
      rw [n0.1, n0.2] at this; exact this
    rw [if_neg n0]
    by_cases n1 : lx.current_char = 33 ∧ peek lx 1 = 61
    · rw [if_pos n1]
      have := h_two TOKEN_NE (by simp [two_char_table, n1.1, n1.2])
      rw [n1.1, n1.2] at this; exact this
    rw [if_neg n1]
    by_cases n2 : lx.current_char = 38 ∧ peek lx 1 = 38
    · rw [if_pos n2]
      have := h_two TOKEN_AND (by simp [two_char_table, n2.1, n2.2])
      rw [n2.1, n2.2] at this; exact this
    rw [if_neg n2]
    by_cases n3 : lx.current_char = 124 ∧ peek lx 1 = 124
    · rw [if_pos n3]
      have := h_two TOKEN_OR (by simp [two_char_table, n3.1, n3.2])
      rw [n3.1, n3.2] at this; exact this
    rw [if_neg n3]
    by_cases n4 : lx.current_char = 60 ∧ peek lx 1 = 61
    · rw [if_pos n4]
      have := h_two TOKEN_LE (by simp [two_char_table, n4.1, n4.2])
      rw [n4.1, n4.2] at this; exact this
    rw [if_neg n4]
    by_cases n5 : lx.current_char = 62 ∧ peek lx 1 = 61
    · rw [if_pos n5]
      have := h_two TOKEN_GE (by simp [two_char_table, n5.1, n5.2])
      rw [n5.1, n5.2] at this; exact this
    rw [if_neg n5]
    have hno2 : ∀ ty2, (lx.current_char, peek lx 1, ty2) ∉ two_char_table := by
      intro ty2 hmem
      rcases two_char_table_cases hmem with h | h | h | h | h | h
      · exact n0 ⟨h.1, h.2.1⟩
      · exact n1 ⟨h.1, h.2.1⟩
      · exact n2 ⟨h.1, h.2.1⟩
      · exact n3 ⟨h.1, h.2.1⟩
      · exact n4 ⟨h.1, h.2.1⟩
      · exact n5 ⟨h.1, h.2.1⟩
    by_cases m0 : lx.current_char = 61
    · rw [if_pos m0]
      have := h_one TOKEN_ASSIGN (by simp [one_char_table, m0]) hno2
      rw [m0] at this; exact this
    rw [if_neg m0]
    by_cases m1 : lx.current_char = 59
    · rw [if_pos m1]
      have := h_one TOKEN_SEMICOLON (by simp [one_char_table, m1]) hno2
      rw [m1] at this; exact this
    rw [if_neg m1]
    by_cases m2 : lx.current_char = 40
    · rw [if_pos m2]
      have := h_one TOKEN_LPAREN (by simp [one_char_table, m2]) hno2
      rw [m2] at this; exact this
    rw [if_neg m2]
    by_cases m3 : lx.current_char = 41
    · rw [if_pos m3]
      have := h_one TOKEN_RPAREN (by simp [one_char_table, m3]) hno2
      rw [m3] at this; exact this
    rw [if_neg m3]
    by_cases m4 : lx.current_char = 123
    · rw [if_pos m4]
      have := h_one TOKEN_LBRACE (by simp [one_char_table, m4]) hno2
      rw [m4] at this; exact this
    rw [if_neg m4]
    by_cases m5 : lx.current_char = 125
    · rw [if_pos m5]
      have := h_one TOKEN_RBRACE (by simp [one_char_table, m5]) hno2
      rw [m5] at this; exact this
    rw [if_neg m5]
    by_cases m6 : lx.current_char = 44
    · rw [if_pos m6]
      have := h_one TOKEN_COMMA (by simp [one_char_table, m6]) hno2
      rw [m6] at this; exact this
    rw [if_neg m6]
    by_cases m7 : lx.current_char = 43
    · rw [if_pos m7]
      have := h_one TOKEN_PLUS (by simp [one_char_table, m7]) hno2
      rw [m7] at this; exact this
    rw [if_neg m7]
    by_cases m8 : lx.current_char = 45
    · rw [if_pos m8]
      have := h_one TOKEN_MINUS (by simp [one_char_table, m8]) hno2
      rw [m8] at this; exact this
    rw [if_neg m8]
    by_cases m9 : lx.current_char = 42
    · rw [if_pos m9]
      have := h_one TOKEN_MULTIPLY (by simp [one_char_table, m9]) hno2
      rw [m9] at this; exact this
    rw [if_neg m9]
    by_cases m10 : lx.current_char = 47
    · rw [if_pos m10]
      have := h_one TOKEN_DIVIDE (by simp [one_char_table, m10]) hno2
      rw [m10] at this; exact this
    rw [if_neg m10]
    by_cases m11 : lx.current_char = 60
    · rw [if_pos m11]
      have := h_one TOKEN_LT (by simp [one_char_table, m11]) hno2
      rw [m11] at this; exact this
    rw [if_neg m11]
    by_cases m12 : lx.current_char = 62
    · rw [if_pos m12]
      have := h_one TOKEN_GT (by simp [one_char_table, m12]) hno2
      rw [m12] at this; exact this
    rw [if_neg m12]
    have hno1 : ∀ ty, (lx.current_char, ty) ∉ one_char_table := by
      intro ty hmem
      rcases one_char_table_cases hmem with h | h | h | h | h | h | h | h | h | h | h | h | h
      · exact m0 h.1
      · exact m1 h.1
      · exact m2 h.1
      · exact m3 h.1
      · exact m4 h.1
      · exact m5 h.1
      · exact m6 h.1
      · exact m7 h.1
      · exact m8 h.1
      · exact m9 h.1
      · exact m10 h.1
      · exact m11 h.1
      · exact m12 h.1
    by_cases h4 : lx.current_char = 39
    · rw [if_pos h4]; exact h_str h4
    rw [if_neg h4]
    by_cases h5 : isdigit lx.current_char = true
    · rw [if_pos h5]; exact h_num h5
    rw [if_neg h5]
    by_cases h6 : isalpha lx.current_char = true ∨ lx.current_char = 95
    · rw [if_pos h6]; exact h_id h6
    rw [if_neg h6]
    apply h_err h1 (by simpa [h1] using hexit) hno2 hno1 h4 (by simpa using h5) h6

/-! ## 9. The cursor stays a position of the source -/

theorem getD_zero_of_le (s : List Nat) (p : Nat) (h : s.length ≤ p) : s.getD p 0 = 0 := by
  simp [List.getD_eq_getElem?_getD, List.getElem?_eq_none h]

theorem getD_mem_of_lt (s : List Nat) (p : Nat) (h : p < s.length) : s.getD p 0 ∈ s := by
  rw [List.getD_eq_getElem _ _ h]
  exact List.getElem_mem h

theorem cstr_of_nul_free (s : List Nat) (hs : 0 ∉ s) : cstr s = s := by
  unfold cstr
  rw [List.takeWhile_eq_self_iff]
  intro c hc
  have : c ≠ 0 := fun h => hs (h ▸ hc)
  simpa using this

theorem strlen_of_nul_free (s : List Nat) (hs : 0 ∉ s) : strlen s = s.length := by
  unfold strlen; rw [cstr_of_nul_free s hs]

theorem sync_pos_lt {s : List Nat} {lx : Lexer} (h : Sync s lx) (hc : lx.current_char ≠ 0) :
    lx.current_pos < s.length := by
  obtain ⟨_, _, h3, h4⟩ := h
  by_contra hlt
  exact hc (by rw [h4]; exact getD_zero_of_le s _ (by omega))

theorem sync_char_ne_zero {s : List Nat} {lx : Lexer} (h : Sync s lx) (hs : 0 ∉ s)
    (hlt : lx.current_pos < s.length) : lx.current_char ≠ 0 := by
  obtain ⟨_, _, _, h4⟩ := h
  intro h0
  exact hs (by rw [← h0, h4]; exact getD_mem_of_lt s _ hlt)

theorem sync_advance {s : List Nat} {lx : Lexer} (h : Sync s lx) (hc : lx.current_char ≠ 0) :
    Sync s (advance lx) := by
  have hlt := sync_pos_lt h hc
  obtain ⟨h1, h2, h3, h4⟩ := h
  refine ⟨h1, h2, ?_, ?_⟩
  · simp only [advance_current_pos]; omega
  · rw [advance_current_char, h1, h2, advance_current_pos]
    split_ifs with hp
    · rfl
    · exact (getD_zero_of_le s _ (by omega)).symm

theorem sync_skip_body {s : List Nat} {lx : Lexer} (h : Sync s lx) (hc : lx.current_char ≠ 0) :
    Sync s (skip_body lx) := by
  have hlt := sync_pos_lt h hc
  obtain ⟨h1, h2, h3, h4⟩ := h
  refine ⟨by rw [skip_body_source_code, h1], by rw [skip_body_source_len, h2], ?_, ?_⟩
  · rw [skip_body_current_pos]; omega
  · rw [skip_body_current_char, h1, h2, skip_body_current_pos]
    split_ifs with hp
    · rfl
    · exact (getD_zero_of_le s _ (by omega)).symm

theorem sync_advance_while {s : List Nat} {lx : Lexer} (cond : Nat → Bool) (fuel : Nat)
    (h : Sync s lx) : Sync s (advance_while cond fuel lx) :=
  advance_while_induct cond (fun _ hl hc _ => sync_advance hl hc) fuel lx h

theorem sync_skip_whitespace {s : List Nat} {lx : Lexer} (h : Sync s lx) :
    Sync s (skip_whitespace lx) :=
  skip_whitespace_loop_induct (fun _ hl hc _ => sync_skip_body hl hc) _ lx h

theorem sync_read_string {s : List Nat} {lx : Lexer} (h : Sync s lx)
    (hc : lx.current_char ≠ 0) : Sync s (read_string lx).2 := by
  have h2 : Sync s (Lexer2.advance_while (fun c => c != 39) (loop_fuel (Lexer2.advance lx))
      (Lexer2.advance lx)) := sync_advance_while _ _ (sync_advance h hc)
  unfold Lexer2.read_string
  dsimp only
  split_ifs with h0
  · exact h2
  · exact sync_advance h2 h0

theorem peek_ne_zero_lt {lx : Lexer} (h : peek lx 1 ≠ 0) :
    lx.current_pos + 1 < lx.source_len := by
  unfold peek at h
  by_contra hlt
  simp [hlt] at h

theorem two_char_table_ne_zero {a b : Nat} {ty : TokenType}
    (h : (a, b, ty) ∈ two_char_table) : a ≠ 0 ∧ b ≠ 0 ∧ a ≠ 10 ∧ b ≠ 10 ∧ ty ≠ TOKEN_EOF := by
  simp only [two_char_table, List.mem_cons, Prod.mk.injEq, List.mem_singleton,
    List.not_mem_nil, or_false] at h
  rcases h with h | h | h | h | h | h <;> obtain ⟨rfl, rfl, rfl⟩ := h <;> decide

theorem one_char_table_ne_zero {a : Nat} {ty : TokenType}
    (h : (a, ty) ∈ one_char_table) : a ≠ 0 ∧ a ≠ 10 ∧ ty ≠ TOKEN_EOF := by
  simp only [one_char_table, List.mem_cons, Prod.mk.injEq, List.mem_singleton,
    List.not_mem_nil, or_false] at h
  rcases h with h | h | h | h | h | h | h | h | h | h | h | h | h <;>
    obtain ⟨rfl, rfl⟩ := h <;> decide

theorem isdigit_ne_zero {c : Nat} (h : isdigit c = true) : c ≠ 0 ∧ c ≠ 10 ∧ c ≠ 39 := by
  simp only [isdigit, Bool.and_eq_true, decide_eq_true_eq] at h
  omega

theorem isalpha_ne_zero {c : Nat} (h : isalpha c = true ∨ c = 95) :
    c ≠ 0 ∧ c ≠ 10 ∧ c ≠ 39 := by
  simp only [isalpha, Bool.or_eq_true, Bool.and_eq_true, decide_eq_true_eq] at h
  omega

theorem isalnum_ne_zero {c : Nat} (h : (isalnum c || c == 95) = true) :
    c ≠ 0 ∧ c ≠ 10 ∧ c ≠ 39 := by
  simp only [isalnum, isalpha, isdigit, Bool.or_eq_true, Bool.and_eq_true, decide_eq_true_eq,
    beq_iff_eq] at h
  omega

/-- Every call of the driver keeps the cursor a position of the source. -/
theorem sync_get_next_token {s : List Nat} {lx : Lexer} (h : Sync s lx) :
    Sync s (get_next_token lx).2 := by
  have hs := sync_skip_whitespace h
  apply get_next_token_elim lx (fun r => Sync s r.2)
  · intro _; exact hs
  · intro ty hmem
    obtain ⟨ha, hb, -⟩ := two_char_table_ne_zero hmem
    exact sync_advance (sync_advance hs ha) (by rw [advance_current_char_eq_peek]; exact hb)
  · intro ty hmem _
    exact sync_advance hs (one_char_table_ne_zero hmem).1
  · intro h39
    exact sync_read_string hs (by omega)
  · intro _
    exact sync_advance_while _ _ hs
  · intro _
    exact sync_advance_while _ _ hs
  · intro hc _ _ _ _ _ _
    exact sync_advance hs hc

theorem sync_init_lexer (s : List Nat) (hs : 0 ∉ s) : Sync s (init_lexer s) :=
  ⟨rfl, strlen_of_nul_free s hs, Nat.zero_le _, rfl⟩

theorem sync_lex_steps {s : List Nat} (k : Nat) :
    ∀ {lx : Lexer}, Sync s lx → Sync s (lex_steps k lx) := by
  induction k with
  | zero => intro lx h; exact h
  | succ k ih => intro lx h; exact ih (sync_get_next_token h)

/-! ## 10. Progress of the driver -/

theorem advance_while_pos_le (cond : Nat → Bool) (fuel : Nat) (lx0 lx : Lexer)
    (h : lx0.current_pos ≤ lx.current_pos) :
    lx0.current_pos ≤ (advance_while cond fuel lx).current_pos :=
  advance_while_induct (P := fun l => lx0.current_pos ≤ l.current_pos) cond
    (fun l hl _ _ => by
      have hl2 : lx0.current_pos ≤ l.current_pos := hl
      show lx0.current_pos ≤ (advance l).current_pos
      rw [advance_current_pos]
      omega) fuel lx h

theorem advance_while_progress (cond : Nat → Bool) (lx : Lexer) (hc : lx.current_char ≠ 0)
    (hcond : cond lx.current_char = true) :
    lx.current_pos + 1 ≤ (advance_while cond (loop_fuel lx) lx).current_pos := by
  unfold loop_fuel
  rw [advance_while_succ, if_pos ⟨hc, hcond⟩]
  exact advance_while_pos_le cond _ (advance lx) (advance lx) (le_refl _)

theorem skip_whitespace_loop_pos_le (fuel : Nat) (lx0 lx : Lexer)
    (h : lx0.current_pos ≤ lx.current_pos) :
    lx0.current_pos ≤ (skip_whitespace_loop fuel lx).current_pos :=
  skip_whitespace_loop_induct (P := fun l => lx0.current_pos ≤ l.current_pos)
    (fun l hl _ _ => by
      have e := skip_body_current_pos l
      have hl2 : lx0.current_pos ≤ l.current_pos := hl
      show lx0.current_pos ≤ (skip_body l).current_pos
      omega) fuel lx h

theorem skip_whitespace_pos_le (lx : Lexer) :
    lx.current_pos ≤ (skip_whitespace lx).current_pos :=
  skip_whitespace_loop_pos_le _ lx lx (le_refl _)

theorem skip_whitespace_progress (lx : Lexer) (hc : lx.current_char ≠ 0)
    (h0 : (skip_whitespace lx).current_char = 0) :
    lx.current_pos + 1 ≤ (skip_whitespace lx).current_pos := by
  by_cases hsp : isspace lx.current_char = true
  · unfold skip_whitespace loop_fuel
    rw [skip_whitespace_loop_succ, if_pos ⟨hc, hsp⟩]
    have := skip_whitespace_loop_pos_le (lx.source_len - lx.current_pos) (skip_body lx)
      (skip_body lx) (le_refl _)
    rw [skip_body_current_pos] at this
    exact this
  · rw [skip_whitespace_id lx (fun h => hsp h.2)] at h0
    exact absurd h0 hc

theorem read_string_progress (lx : Lexer) :
    lx.current_pos + 1 ≤ (read_string lx).2.current_pos := by
  have h := advance_while_pos_le (fun c => c != 39) (loop_fuel (advance lx)) (advance lx)
    (advance lx) (le_refl _)
  rw [advance_current_pos] at h
  unfold read_string
  dsimp only
  split_ifs
  · exact h
  · simp only [advance_current_pos]; omega

/-- A call of the driver made on a non-sentinel current character moves the
cursor forward. -/
theorem get_next_token_progress (lx : Lexer) (hc : lx.current_char ≠ 0) :
    lx.current_pos < (get_next_token lx).2.current_pos := by
  have hle := skip_whitespace_pos_le lx
  apply get_next_token_elim lx (fun r => lx.current_pos < r.2.current_pos)
  · intro h0
    exact skip_whitespace_progress lx hc h0
  · intro ty _
    simp only [advance_current_pos]; omega
  · intro ty _ _
    simp only [advance_current_pos]; omega
  · intro _
    have := read_string_progress (skip_whitespace lx)
    omega
  · intro hd
    have := advance_while_progress isdigit (skip_whitespace lx) (isdigit_ne_zero hd).1 hd
    exact Nat.lt_of_lt_of_le (Nat.lt_succ_of_le hle) this
  · intro hal
    have hcond : (fun c => isalnum c || c == 95) (skip_whitespace lx).current_char = true := by
      rcases hal with hal | hal
      · simp [isalnum, hal]
      · simp [hal]
    have := advance_while_progress (fun c => isalnum c || c == 95) (skip_whitespace lx)
      (isalpha_ne_zero hal).1 hcond
    exact Nat.lt_of_lt_of_le (Nat.lt_succ_of_le hle) this
  · intro _ _ _ _ _ _ _
    simp only [advance_current_pos]; omega

theorem get_next_token_at_end (lx : Lexer) (h0 : lx.current_char = 0) :
    get_next_token lx = (⟨TOKEN_EOF, none, lx.line, lx.column⟩, lx) := by
  simp [get_next_token, h0, create_token]

theorem lex_steps_succ (k : Nat) : ∀ lx : Lexer,
    lex_steps (k + 1) lx = (get_next_token (lex_steps k lx)).2 := by
  induction k with
  | zero => intro lx; rfl
  | succ k ih =>
    intro lx
    show lex_steps (k + 1) (get_next_token lx).2 = _
    rw [ih]
    rfl

theorem get_keyword_type_ne_eof (t : List Nat) : get_keyword_type t ≠ TOKEN_EOF := by
  unfold get_keyword_type
  split_ifs <;> decide

theorem read_string_type (lx : Lexer) : (read_string lx).1.type ≠ TOKEN_EOF := by
  unfold read_string
  dsimp only
  split_ifs <;> simp [create_token]

/-- When the driver returns `EOF`, it leaves the cursor on the sentinel and
the token carries no text and the position of the cursor. -/
theorem get_next_token_eof (lx : Lexer) (h : (get_next_token lx).1.type = TOKEN_EOF) :
    (get_next_token lx).2.current_char = 0 ∧
    (get_next_token lx).1 =
      ⟨TOKEN_EOF, none, (get_next_token lx).2.line, (get_next_token lx).2.column⟩ := by
  revert h
  apply get_next_token_elim lx (fun r => r.1.type = TOKEN_EOF →
    r.2.current_char = 0 ∧ r.1 = ⟨TOKEN_EOF, none, r.2.line, r.2.column⟩)
  · intro h0 _
    exact ⟨h0, rfl⟩
  · intro ty hmem h
    exact absurd h (two_char_table_ne_zero hmem).2.2.2.2
  · intro ty hmem _ h
    exact absurd h (one_char_table_ne_zero hmem).2.2
  · intro _ h
    exact absurd h (read_string_type _)
  · intro _ h
    simp [read_number, create_token] at h
  · intro _ h
    exact absurd h (get_keyword_type_ne_eof _)
  · intro _ _ _ _ _ _ _ h
    simp [create_token] at h

/-! ## 11. Line and column tracking -/

theorem last_newline_before_lt (s : List Nat) :
    ∀ (off i : Nat), last_newline_before s off = some i → i < off := by
  intro off
  induction off with
  | zero => intro i h; simp [last_newline_before] at h
  | succ n ih =>
    intro i h
    unfold last_newline_before at h
    split_ifs at h with hc
    · simp only [Option.some.injEq] at h; omega
    · have := ih i h; omega

/-- The offset found by `last_newline_before` holds a newline and no later
offset before `off` does. -/
theorem last_newline_before_spec (s : List Nat) :
    ∀ (off i : Nat), last_newline_before s off = some i →
      s.getD i 0 = 10 ∧ ∀ j : Nat, i < j → j < off → s.getD j 0 ≠ 10 := by
  intro off
  induction off with
  | zero => intro i h; simp [last_newline_before] at h
  | succ n ih =>
    intro i h
    unfold last_newline_before at h
    split_ifs at h with hc
    · simp only [Option.some.injEq] at h
      subst h
      exact ⟨hc, fun j h1 h2 => by omega⟩
    · obtain ⟨h1, h2⟩ := ih i h
      refine ⟨h1, fun j hj1 hj2 => ?_⟩
      by_cases hjn : j = n
      · rw [hjn]; exact hc
      · exact h2 j hj1 (by omega)

/-- No newline before `off` at all when `last_newline_before` finds none. -/
theorem last_newline_before_none (s : List Nat) :
    ∀ off : Nat, last_newline_before s off = none →
      ∀ j : Nat, j < off → s.getD j 0 ≠ 10 := by
  intro off
  induction off with
  | zero => intro _ j hj; omega
  | succ n ih =>
    intro h j hj
    unfold last_newline_before at h
    split_ifs at h with hc
    by_cases hjn : j = n
    · rw [hjn]; exact hc
    · exact ih h j (by omega)

theorem spec_line_succ (s : List Nat) (p : Nat) (h : p < s.length) :
    spec_line s (p + 1) = spec_line s p + (if s.getD p 0 = 10 then 1 else 0) := by
  unfold spec_line
  rw [List.take_succ, List.count_append, List.getD_eq_getElem _ _ h,
    List.getElem?_eq_getElem h]
  by_cases hc : s[p] = 10
  · simp [hc]; omega
  · simp [hc, List.count_singleton]

theorem spec_column_succ (s : List Nat) (p : Nat) :
    spec_column s (p + 1) = if s.getD p 0 = 10 then 1 else spec_column s p + 1 := by
  unfold spec_column
  rw [last_newline_before]
  split_ifs with hc
  · simp
  · cases hl : last_newline_before s p with
    | none => rfl
    | some i =>
      have := last_newline_before_lt s p i hl
      simp only
      omega

theorem tracked_advance {s : List Nat} {lx : Lexer} (h : Tracked s lx)
    (hc : lx.current_char ≠ 0) (hn : lx.current_char ≠ 10) : Tracked s (advance lx) := by
  refine ⟨sync_advance h.1 hc, ?_⟩
  have hlt := sync_pos_lt h.1 hc
  obtain ⟨⟨_, _, _, h4⟩, h5, h6⟩ := h
  rw [h4] at hn
  constructor
  · rw [advance_line, advance_current_pos, spec_line_succ s _ hlt, if_neg hn, h5]; rfl
  · rw [advance_column, advance_current_pos, spec_column_succ, if_neg hn, h6]

theorem tracked_skip_body {s : List Nat} {lx : Lexer} (h : Tracked s lx)
    (hc : lx.current_char ≠ 0) : Tracked s (skip_body lx) := by
  refine ⟨sync_skip_body h.1 hc, ?_⟩
  have hlt := sync_pos_lt h.1 hc
  obtain ⟨⟨_, _, _, h4⟩, h5, h6⟩ := h
  unfold PosOk
  rw [skip_body_current_pos, spec_line_succ s _ hlt, spec_column_succ, ← h4]
  unfold Lexer2.skip_body
  split_ifs with hn
  · simp [Lexer2.advance, h5]
  · simp [h5, h6]

theorem tracked_skip_whitespace {s : List Nat} {lx : Lexer} (h : Tracked s lx) :
    Tracked s (skip_whitespace lx) :=
  skip_whitespace_loop_induct (fun _ hl hc _ => tracked_skip_body hl hc) _ lx h

theorem tracked_init_lexer (s : List Nat) (hs : 0 ∉ s) : Tracked s (init_lexer s) :=
  ⟨sync_init_lexer s hs, by simp [Lexer2.init_lexer, spec_line], by
    simp [Lexer2.init_lexer, spec_column, last_newline_before]⟩

theorem isspace_zero : isspace 0 = false := by decide

theorem nul_free_of_isspace (w : List Nat) (hw : ∀ c ∈ w, isspace c = true) : 0 ∉ w := by
  intro h0
  have := hw 0 h0
  rw [isspace_zero] at this
  exact Bool.noConfusion this

/-- Extending a source at the end does not move the last newline before an
offset of the original part. -/
theorem last_newline_before_append (w t : List Nat) :
    ∀ off : Nat, off ≤ w.length →
      last_newline_before (w ++ t) off = last_newline_before w off := by
  intro off
  induction off with
  | zero => intro _; rfl
  | succ n ih =>
    intro h
    unfold last_newline_before
    have hget : (w ++ t).getD n 0 = w.getD n 0 := by
      rw [List.getD_eq_getElem?_getD, List.getD_eq_getElem?_getD,
        List.getElem?_append_left (by omega)]
    rw [hget, ih (by omega)]

/-- At the end of a source the specified column is one more than the number
of characters after the last newline. -/
theorem spec_column_length (w : List Nat) :
    spec_column w w.length = 1 + chars_after_last_newline w := by
  induction w using List.reverseRecOn with
  | nil => rfl
  | append_singleton w c ih =>
    have hlen : (w ++ [c]).length = w.length + 1 := by simp
    have hget : (w ++ [c]).getD w.length 0 = c := by
      simp [List.getD_eq_getElem?_getD]
    rw [hlen, spec_column_succ, hget]
    unfold chars_after_last_newline
    rw [List.reverse_concat]
    by_cases hc : c = 10
    · simp [hc]
    · have hcol : spec_column (w ++ [c]) w.length = spec_column w w.length := by
        unfold spec_column
        rw [last_newline_before_append w [c] w.length (le_refl _)]
      rw [if_neg hc, hcol, ih]
      unfold chars_after_last_newline
      rw [List.takeWhile_cons_of_pos (by simpa using hc)]
      simp only [List.length_cons]
      omega

/-! ## 12. Which branch the driver takes, and runs of characters -/

theorem isdigit_iff (c : Nat) : isdigit c = true ↔ 48 ≤ c ∧ c ≤ 57 := by
  simp [isdigit]

theorem isalpha_iff (c : Nat) : isalpha c = true ↔ (65 ≤ c ∧ c ≤ 90) ∨ (97 ≤ c ∧ c ≤ 122) := by
  simp [isalpha]

theorem isspace_iff (c : Nat) : isspace c = true ↔ c = 32 ∨ (9 ≤ c ∧ c ≤ 13) := by
  simp [isspace]

theorem isalnum_iff (c : Nat) :
    isalnum c = true ↔ ((65 ≤ c ∧ c ≤ 90) ∨ (97 ≤ c ∧ c ≤ 122)) ∨ (48 ≤ c ∧ c ≤ 57) := by
  simp [isalnum, isalpha, isdigit]

theorem two_char_table_first {a b : Nat} {ty : TokenType} (h : (a, b, ty) ∈ two_char_table) :
    a = 61 ∨ a = 33 ∨ a = 38 ∨ a = 124 ∨ a = 60 ∨ a = 62 := by
  rcases two_char_table_cases h with h | h | h | h | h | h <;> omega

theorem one_char_table_first {a : Nat} {ty : TokenType} (h : (a, ty) ∈ one_char_table) :
    a = 61 ∨ a = 59 ∨ a = 40 ∨ a = 41 ∨ a = 123 ∨ a = 125 ∨ a = 44 ∨ a = 43 ∨ a = 45 ∨
      a = 42 ∨ a = 47 ∨ a = 60 ∨ a = 62 := by
  rcases one_char_table_cases h with h | h | h | h | h | h | h | h | h | h | h | h | h <;> omega

/-- On a digit the driver runs `read_number`, without skipping anything. -/
theorem get_next_token_digit (lx : Lexer) (h : isdigit lx.current_char = true) :
    get_next_token lx = read_number lx := by
  have hd := (isdigit_iff _).1 h
  have hid : skip_whitespace lx = lx :=
    skip_whitespace_id lx (fun hc => by have := (isspace_iff _).1 hc.2; omega)
  apply get_next_token_elim lx (fun r => r = read_number lx) <;> rw [hid]
  · intro h0; omega
  · intro ty hmem; have := two_char_table_first hmem; omega
  · intro ty hmem _; have := one_char_table_first hmem; omega
  · intro h39; omega
  · intro _; rfl
  · intro hal; rw [isalpha_iff] at hal; omega
  · intro _ _ _ _ _ hnd _; rw [h] at hnd; exact Bool.noConfusion hnd

/-- On a letter or underscore the driver runs `read_identifier_or_keyword`. -/
theorem get_next_token_alpha (lx : Lexer)
    (h : isalpha lx.current_char = true ∨ lx.current_char = 95) :
    get_next_token lx = read_identifier_or_keyword lx := by
  have hd := h
  rw [isalpha_iff] at hd
  have hid : skip_whitespace lx = lx :=
    skip_whitespace_id lx (fun hc => by have := (isspace_iff _).1 hc.2; omega)
  apply get_next_token_elim lx (fun r => r = read_identifier_or_keyword lx) <;> rw [hid]
  · intro h0; omega
  · intro ty hmem; have := two_char_table_first hmem; omega
  · intro ty hmem _; have := one_char_table_first hmem; omega
  · intro h39; omega
  · intro hdig; rw [isdigit_iff] at hdig; omega
  · intro _; rfl
  · intro _ _ _ _ _ _ hna; exact absurd h hna

/-- On a single quote the driver runs `read_string`. -/
theorem get_next_token_quote (lx : Lexer) (h : lx.current_char = 39) :
    get_next_token lx = read_string lx := by
  have hid : skip_whitespace lx = lx :=
    skip_whitespace_id lx (fun hc => by have := (isspace_iff _).1 hc.2; omega)
  apply get_next_token_elim lx (fun r => r = read_string lx) <;> rw [hid]
  · intro h0; omega
  · intro ty hmem; have := two_char_table_first hmem; omega
  · intro ty hmem _; have := one_char_table_first hmem; omega
  · intro _; rfl
  · intro hdig; rw [isdigit_iff] at hdig; omega
  · intro hal; rw [isalpha_iff] at hal; omega
  · intro _ _ _ _ h39 _ _; exact absurd h h39

theorem jump_zero (lx : Lexer) (h : CharAtPos lx) : jump lx 0 = lx := by
  unfold CharAtPos at h
  cases lx
  simp only [jump, Nat.add_zero] at *
  rw [← h]

theorem jump_advance (lx : Lexer) (n : Nat) : jump (advance lx) n = jump lx (n + 1) := by
  simp only [jump, advance, Lexer.mk.injEq, true_and]
  have e : lx.current_pos + 1 + n = lx.current_pos + (n + 1) := by omega
  rw [e]
  exact ⟨rfl, rfl, by omega, trivial⟩

theorem charAtPos_advance (lx : Lexer) : CharAtPos (advance lx) := by
  simp [CharAtPos, Lexer2.advance]

/-- A loop `while (c != '\0' && cond(c)) advance` started on a run of `n`
characters that satisfy `cond`, followed by the end of the source or by a
character that does not, stops right after the run. -/
theorem advance_while_run (cond : Nat → Bool) (n : Nat) :
    ∀ (fuel : Nat) (lx : Lexer), n ≤ fuel → CharAtPos lx →
      (∀ i : Nat, i < n → lx.current_pos + i < lx.source_len ∧
        lx.source_code.getD (lx.current_pos + i) 0 ≠ 0 ∧
        cond (lx.source_code.getD (lx.current_pos + i) 0) = true) →
      ¬ ((jump lx n).current_char ≠ 0 ∧ cond (jump lx n).current_char = true) →
      advance_while cond fuel lx = jump lx n := by
  induction n with
  | zero =>
    intro fuel lx _ hcp _ hstop
    rw [jump_zero lx hcp] at hstop ⊢
    cases fuel with
    | zero => rfl
    | succ f => rw [advance_while_succ, if_neg hstop]
  | succ n ih =>
    intro fuel lx hf hcp hrun hstop
    obtain ⟨f, rfl⟩ : ∃ f, fuel = f + 1 := ⟨fuel - 1, by omega⟩
    have h0 := hrun 0 (Nat.succ_pos n)
    rw [Nat.add_zero] at h0
    have hc : lx.current_char = lx.source_code.getD lx.current_pos 0 := by
      rw [hcp, if_pos h0.1]
    rw [advance_while_succ, if_pos ⟨by rw [hc]; exact h0.2.1, by rw [hc]; exact h0.2.2⟩]
    rw [← jump_advance] at hstop ⊢
    apply ih f (Lexer2.advance lx) (by omega) (charAtPos_advance lx) _ hstop
    intro i hi
    have := hrun (i + 1) (by omega)
    simp only [advance_current_pos, advance_source_len, advance_source_code]
    have e : lx.current_pos + 1 + i = lx.current_pos + (i + 1) := by omega
    rw [e]
    exact this

theorem getD_append_pre (pre t : List Nat) (i : Nat) :
    (pre ++ t).getD (pre.length + i) 0 = t.getD i 0 := by
  rw [List.getD_eq_getElem?_getD, List.getD_eq_getElem?_getD,
    List.getElem?_append_right (by omega)]
  simp

theorem getD_append_lt (run t : List Nat) (i : Nat) (h : i < run.length) :
    (run ++ t).getD i 0 = run.getD i 0 := by
  rw [List.getD_eq_getElem?_getD, List.getD_eq_getElem?_getD, List.getElem?_append_left h]

theorem strlen_append (run t : List Nat) (h : 0 ∉ run) :
    strlen (run ++ t) = run.length + strlen t := by
  unfold strlen cstr
  rw [List.takeWhile_append_of_pos, List.length_append]
  intro c hc
  have : c ≠ 0 := fun h0 => h (h0 ▸ hc)
  simpa using this

theorem getD_zero_of_strlen_zero (t : List Nat) (h : strlen t = 0) : t.getD 0 0 = 0 := by
  cases t with
  | nil => rfl
  | cons c t =>
    by_cases hc : c = 0
    · simp [hc]
    · simp [strlen, cstr, List.takeWhile_cons, hc] at h

theorem charAtPos_init_lexer (s : List Nat) : CharAtPos (init_lexer s) := by
  unfold CharAtPos Lexer2.init_lexer
  simp only
  split_ifs with h
  · rfl
  · exact getD_zero_of_strlen_zero s (by omega)

/-- List form of `advance_while_run`: the cursor stands right after `pre` in
the source `pre ++ run ++ rest`, the run satisfies the loop condition and the
first character of `rest`, if any, does not. -/
theorem advance_while_run_list (cond : Nat → Bool) (pre run rest : List Nat) (lx : Lexer)
    (hsrc : lx.source_code = pre ++ run ++ rest) (hpos : lx.current_pos = pre.length)
    (hlen : lx.source_len = strlen (pre ++ run ++ rest)) (hpre : 0 ∉ pre)
    (hcp : CharAtPos lx) (hrun : ∀ c ∈ run, c ≠ 0 ∧ cond c = true)
    (hstop : ¬ (rest.getD 0 0 ≠ 0 ∧ cond (rest.getD 0 0) = true)) :
    advance_while cond (loop_fuel lx) lx = jump lx run.length ∧
    (jump lx run.length).current_char = rest.getD 0 0 := by
  have hnul : 0 ∉ pre ++ run := by
    intro h0
    rcases List.mem_append.1 h0 with h | h
    · exact hpre h
    · exact (hrun 0 h).1 rfl
  have hL : lx.source_len = pre.length + run.length + strlen rest := by
    rw [hlen, strlen_append (pre ++ run) rest hnul, List.length_append]
  have hchar : (jump lx run.length).current_char = rest.getD 0 0 := by
    simp only [jump, hsrc, hpos, hL]
    have e : (pre ++ run ++ rest).getD (pre.length + run.length) 0 = rest.getD 0 0 := by
      have := getD_append_pre (pre ++ run) rest 0
      rw [List.length_append, Nat.add_zero] at this
      exact this
    rw [e]
    split_ifs with hlt
    · rfl
    · exact (getD_zero_of_strlen_zero rest (by omega)).symm
  refine ⟨?_, hchar⟩
  apply advance_while_run cond run.length (loop_fuel lx) lx
  · unfold loop_fuel; rw [hL, hpos]; omega
  · exact hcp
  · intro i hi
    have e : lx.source_code.getD (lx.current_pos + i) 0 = run.getD i 0 := by
      rw [hsrc, hpos, List.append_assoc, getD_append_pre, getD_append_lt _ _ _ hi]
    rw [e]
    have hm := hrun _ (getD_mem_of_lt run i hi)
    exact ⟨by rw [hpos, hL]; omega, hm.1, hm.2⟩
  · rw [hchar]; exact hstop

theorem jump_current_pos (lx : Lexer) (n : Nat) :
    (jump lx n).current_pos = lx.current_pos + n := rfl

theorem jump_source_code (lx : Lexer) (n : Nat) : (jump lx n).source_code = lx.source_code := rfl

theorem jump_line (lx : Lexer) (n : Nat) : (jump lx n).line = lx.line := rfl

theorem jump_column (lx : Lexer) (n : Nat) : (jump lx n).column = lx.column + n := rfl

theorem nul_free_of_forall {run : List Nat} {q : Nat → Prop} (h : ∀ c ∈ run, c ≠ 0 ∧ q c) :
    0 ∉ run := fun h0 => (h 0 h0).1 rfl

/-- Scanning a number: the source is a non-empty run `d` of digits followed by
`rest`, whose first character, if any, is not a digit. -/
theorem read_number_run (d rest : List Nat) (hdig : ∀ c ∈ d, isdigit c = true)
    (hrest : isdigit (rest.getD 0 0) = false) :
    read_number (init_lexer (d ++ rest)) =
      (⟨TOKEN_NUMBER, some d, 1, 1⟩, jump (init_lexer (d ++ rest)) d.length) ∧
    (jump (init_lexer (d ++ rest)) d.length).current_char = rest.getD 0 0 := by
  have hrun : ∀ c ∈ d, c ≠ 0 ∧ isdigit c = true :=
    fun c hc => ⟨(isdigit_ne_zero (hdig c hc)).1, hdig c hc⟩
  obtain ⟨h1, h2⟩ := advance_while_run_list isdigit [] d rest (init_lexer (d ++ rest))
    rfl rfl rfl (by simp) (charAtPos_init_lexer _) hrun
    (fun h => by rw [hrest] at h; exact Bool.noConfusion h.2)
  refine ⟨?_, h2⟩
  unfold read_number
  simp only [h1, jump_current_pos, jump_source_code, jump_line]
  simp [Lexer2.init_lexer, create_token, strncpy, cstr_of_nul_free d (nul_free_of_forall hrun)]

/-- Scanning an identifier or keyword: the source is a run of letters, digits
and underscores followed by `rest`, whose first character, if any, is none
of these. -/
theorem read_identifier_run (run rest : List Nat)
    (hid : ∀ c ∈ run, isalnum c = true ∨ c = 95)
    (hrest : ¬ (isalnum (rest.getD 0 0) = true ∨ rest.getD 0 0 = 95)) :
    read_identifier_or_keyword (init_lexer (run ++ rest)) =
      (⟨get_keyword_type run, some run, 1, 1⟩, jump (init_lexer (run ++ rest)) run.length) ∧
    (jump (init_lexer (run ++ rest)) run.length).current_char = rest.getD 0 0 := by
  have hrun : ∀ c ∈ run, c ≠ 0 ∧ (fun c => isalnum c || c == 95) c = true := by
    intro c hc
    have h := hid c hc
    refine ⟨?_, by simpa using h⟩
    rw [isalnum_iff] at h
    omega
  obtain ⟨h1, h2⟩ := advance_while_run_list (fun c => isalnum c || c == 95) [] run rest
    (init_lexer (run ++ rest)) rfl rfl rfl (by simp) (charAtPos_init_lexer _) hrun
    (fun h => hrest (by simpa using h.2))
  refine ⟨?_, h2⟩
  unfold read_identifier_or_keyword
  simp only [h1, jump_current_pos, jump_source_code, jump_line]
  simp [Lexer2.init_lexer, create_token, strncpy,
    cstr_of_nul_free run (nul_free_of_forall hrun)]

theorem tokens_two (lx : Lexer) :
    tokens 2 lx = [(get_next_token lx).1, (get_next_token (get_next_token lx).2).1] := rfl

/-- A source that is one run of identifier characters starting with a letter
or underscore is scanned as one identifier-or-keyword token, then EOF. -/
theorem ident_source_tokens (run : List Nat)
    (hfirst : isalpha (run.getD 0 0) = true ∨ run.getD 0 0 = 95)
    (hid : ∀ c ∈ run, isalnum c = true ∨ c = 95) :
    (tokens 2 (init_lexer run)).map kind_text =
      [(get_keyword_type run, some run), (TOKEN_EOF, none)] := by
  obtain ⟨h1, h2⟩ := read_identifier_run run [] hid (by decide)
  rw [List.append_nil] at h1 h2
  have hg : get_next_token (init_lexer run) = read_identifier_or_keyword (init_lexer run) :=
    get_next_token_alpha _ hfirst
  rw [tokens_two, hg, h1]
  simp only
  rw [get_next_token_at_end _ h2]
  rfl

theorem keyword_table_cases {k : List Nat} {ty : TokenType} (h : (k, ty) ∈ keyword_table) :
    (k = bytes "func" ∧ ty = TOKEN_FUNC) ∨ (k = bytes "if" ∧ ty = TOKEN_IF) ∨
    (k = bytes "else" ∧ ty = TOKEN_ELSE) ∨ (k = bytes "while" ∧ ty = TOKEN_WHILE) ∨
    (k = bytes "break" ∧ ty = TOKEN_BREAK) ∨ (k = bytes "int" ∧ ty = TOKEN_INT) ∨
    (k = bytes "char" ∧ ty = TOKEN_CHAR) := by
  simpa [keyword_table] using h

/-- A reserved word starts with a letter, consists of letters, and stops
being a reserved word when one more character is appended. -/
theorem keyword_table_ext {k : List Nat} {ty : TokenType} (h : (k, ty) ∈ keyword_table)
    (c : Nat) :
    get_keyword_type k = ty ∧ get_keyword_type (k ++ [c]) = TOKEN_IDENTIFIER ∧
    isalpha ((k ++ [c]).getD 0 0) = true ∧ ∀ x ∈ k, isalnum x = true := by
  rcases keyword_table_cases h with h | h | h | h | h | h | h <;> obtain ⟨rfl, rfl⟩ := h <;>
    refine ⟨by decide, ?_, by rfl, by decide⟩ <;>
    simp [get_keyword_type, bytes]

/-- The loop of `read_string` on the source `'` `c` `rest`, where `c` has no
quote and no NUL and `rest` is empty or starts with the closing quote (or a
NUL): it stops right after `c`. -/
theorem read_string_scan (c rest : List Nat) (hc : ∀ x ∈ c, x ≠ 0 ∧ x ≠ 39)
    (hstop : rest.getD 0 0 = 0 ∨ rest.getD 0 0 = 39) :
    advance_while (fun x => x != 39) (loop_fuel (advance (init_lexer ([39] ++ c ++ rest))))
        (advance (init_lexer ([39] ++ c ++ rest))) =
      jump (advance (init_lexer ([39] ++ c ++ rest))) c.length ∧
    (jump (advance (init_lexer ([39] ++ c ++ rest))) c.length).current_char =
      rest.getD 0 0 := by
  apply advance_while_run_list (fun x => x != 39) [39] c rest
    (advance (init_lexer ([39] ++ c ++ rest))) rfl rfl rfl (by decide) (charAtPos_advance _)
  · intro x hx
    exact ⟨(hc x hx).1, by simpa using (hc x hx).2⟩
  · rintro ⟨h1, h2⟩
    rcases hstop with h | h
    · exact h1 h
    · rw [h] at h2; exact Bool.noConfusion h2

theorem strncpy_middle (c rest : List Nat) :
    strncpy ([39] ++ c ++ rest) 1 c.length = c := by
  simp [strncpy]

/-! ### Positions reported by the driver -/

theorem tracked_advance_while {s : List Nat} {lx : Lexer} (cond : Nat → Bool)
    (hcond : ∀ c, cond c = true → c ≠ 10) (fuel : Nat) (h : Tracked s lx) :
    Tracked s (advance_while cond fuel lx) :=
  advance_while_induct cond (fun _ hl hc hcd => tracked_advance hl hc (hcond _ hcd)) fuel lx h

/-- On a source without quotes every call of the driver keeps the line and
column of the cursor in step with its offset. -/
theorem tracked_get_next_token {s : List Nat} {lx : Lexer} (hq : 39 ∉ s)
    (h : Tracked s lx) : Tracked s (get_next_token lx).2 := by
  have hs := tracked_skip_whitespace h
  apply get_next_token_elim lx (fun r => Tracked s r.2)
  · intro _; exact hs
  · intro ty hmem
    obtain ⟨ha, hb, ha2, hb2, -⟩ := two_char_table_ne_zero hmem
    exact tracked_advance (tracked_advance hs ha ha2)
      (by rw [advance_current_char_eq_peek]; exact hb)
      (by rw [advance_current_char_eq_peek]; exact hb2)
  · intro ty hmem _
    obtain ⟨ha, ha2, -⟩ := one_char_table_ne_zero hmem
    exact tracked_advance hs ha ha2
  · intro h39
    exfalso
    apply hq
    have hlt := sync_pos_lt hs.1 (by omega)
    have := getD_mem_of_lt s _ hlt
    rw [← hs.1.2.2.2, h39] at this
    exact this
  · intro _
    exact tracked_advance_while isdigit (fun c hc => (isdigit_ne_zero hc).2.1) _ hs
  · intro _
    exact tracked_advance_while _ (fun c hc => (isalnum_ne_zero hc).2.1) _ hs
  · intro hc hsp _ _ _ _ _
    refine tracked_advance hs hc ?_
    intro h10
    rw [h10] at hsp
    exact Bool.noConfusion hsp

theorem tracked_lex_steps {s : List Nat} (hq : 39 ∉ s) (k : Nat) :
    ∀ {lx : Lexer}, Tracked s lx → Tracked s (lex_steps k lx) := by
  induction k with
  | zero => intro lx h; exact h
  | succ k ih => intro lx h; exact ih (tracked_get_next_token hq h)

theorem advance_while_line (cond : Nat → Bool) (fuel : Nat) (lx : Lexer) :
    (advance_while cond fuel lx).line = lx.line :=
  advance_while_induct (P := fun l => l.line = lx.line) cond
    (fun l hl _ _ => by
      have hl2 : l.line = lx.line := hl
      show (advance l).line = lx.line
      rw [advance_line, hl2]) fuel lx rfl

/-- The token returned by the driver carries the line and column that the
cursor has after whitespace skipping. -/
theorem get_next_token_position (lx : Lexer) :
    (get_next_token lx).1.line = (skip_whitespace lx).line ∧
    (get_next_token lx).1.column = (skip_whitespace lx).column := by
  apply get_next_token_elim lx (fun r => r.1.line = (skip_whitespace lx).line ∧
    r.1.column = (skip_whitespace lx).column)
  · intro _; exact ⟨rfl, rfl⟩
  · intro _ _; exact ⟨rfl, rfl⟩
  · intro _ _ _; exact ⟨rfl, rfl⟩
  · intro _
    unfold read_string
    dsimp only
    split_ifs
    · exact ⟨by simp [create_token, advance_while_line], rfl⟩
    · exact ⟨by simp [create_token, advance_while_line], rfl⟩
  · intro _
    exact ⟨by simp [read_number, create_token, advance_while_line], rfl⟩
  · intro _
    exact ⟨by simp [read_identifier_or_keyword, create_token, advance_while_line], rfl⟩
  · intro _ _ _ _ _ _ _; exact ⟨rfl, rfl⟩

/-! ### The result of each branch of the driver -/

theorem two_char_table_fun {a b : Nat} {ty ty2 : TokenType}
    (h : (a, b, ty) ∈ two_char_table) (h2 : (a, b, ty2) ∈ two_char_table) : ty2 = ty := by
  rcases two_char_table_cases h with h | h | h | h | h | h <;>
    rcases two_char_table_cases h2 with h2 | h2 | h2 | h2 | h2 | h2 <;>
    first
      | (exfalso; omega)
      | (rw [h.2.2, h2.2.2])

theorem one_char_table_fun {a : Nat} {ty ty2 : TokenType}
    (h : (a, ty) ∈ one_char_table) (h2 : (a, ty2) ∈ one_char_table) : ty2 = ty := by
  rcases one_char_table_cases h with h | h | h | h | h | h | h | h | h | h | h | h | h <;>
    rcases one_char_table_cases h2 with
      h2 | h2 | h2 | h2 | h2 | h2 | h2 | h2 | h2 | h2 | h2 | h2 | h2 <;>
    first
      | (exfalso; omega)
      | (rw [h.2, h2.2])

/-- The driver on a state in which whitespace skipping reaches the sentinel. -/
theorem get_next_token_skip_eof (lx : Lexer) (h : (skip_whitespace lx).current_char = 0) :
    get_next_token lx =
      (create_token TOKEN_EOF none (skip_whitespace lx).line (skip_whitespace lx).column,
        skip_whitespace lx) := by
  apply get_next_token_elim lx (fun r => r =
    (create_token TOKEN_EOF none (skip_whitespace lx).line (skip_whitespace lx).column,
      skip_whitespace lx))
  · intro _; rfl
  · intro ty hmem; have := two_char_table_first hmem; omega
  · intro ty hmem _; have := one_char_table_first hmem; omega
  · intro h39; omega
  · intro hdig; rw [isdigit_iff] at hdig; omega
  · intro hal; rw [isalpha_iff] at hal; omega
  · intro hc _ _ _ _ _ _; exact absurd h hc

/-- The driver on a state in which whitespace skipping reaches a
two-character operator. -/
theorem get_next_token_skip_two (lx : Lexer) (ty : TokenType)
    (hmem : ((skip_whitespace lx).current_char, peek (skip_whitespace lx) 1, ty) ∈
      two_char_table) :
    get_next_token lx =
      (create_token ty (some [(skip_whitespace lx).current_char, peek (skip_whitespace lx) 1])
          (skip_whitespace lx).line (skip_whitespace lx).column,
        advance (advance (skip_whitespace lx))) := by
  have hfirst := two_char_table_first hmem
  apply get_next_token_elim lx (fun r => r =
    (create_token ty (some [(skip_whitespace lx).current_char, peek (skip_whitespace lx) 1])
        (skip_whitespace lx).line (skip_whitespace lx).column,
      advance (advance (skip_whitespace lx))))
  · intro h0; omega
  · intro ty2 hmem2; rw [two_char_table_fun hmem hmem2]
  · intro _ _ hno2; exact absurd hmem (hno2 ty)
  · intro h39; omega
  · intro hdig; rw [isdigit_iff] at hdig; omega
  · intro hal; rw [isalpha_iff] at hal; omega
  · intro _ _ hno2 _ _ _ _; exact absurd hmem (hno2 ty)

/-- The driver on a state in which whitespace skipping reaches a
one-character operator that does not start a two-character one. -/
theorem get_next_token_skip_one (lx : Lexer) (ty : TokenType)
    (hmem : ((skip_whitespace lx).current_char, ty) ∈ one_char_table)
    (hno2 : ∀ ty2, ((skip_whitespace lx).current_char, peek (skip_whitespace lx) 1, ty2) ∉
      two_char_table) :
    get_next_token lx =
      (create_token ty (some [(skip_whitespace lx).current_char])
          (skip_whitespace lx).line (skip_whitespace lx).column,
        advance (skip_whitespace lx)) := by
  have hfirst := one_char_table_first hmem
  apply get_next_token_elim lx (fun r => r =
    (create_token ty (some [(skip_whitespace lx).current_char])
        (skip_whitespace lx).line (skip_whitespace lx).column,
      advance (skip_whitespace lx)))
  · intro h0; omega
  · intro ty2 hmem2; exact absurd hmem2 (hno2 ty2)
  · intro ty2 hmem2 _; rw [one_char_table_fun hmem hmem2]
  · intro h39; omega
  · intro hdig; rw [isdigit_iff] at hdig; omega
  · intro hal; rw [isalpha_iff] at hal; omega
  · intro _ _ _ hno1 _ _ _; exact absurd hmem (hno1 ty)

/-- The driver on a state in which whitespace skipping reaches a quote. -/
theorem get_next_token_skip_str (lx : Lexer) (h : (skip_whitespace lx).current_char = 39) :
    get_next_token lx = read_string (skip_whitespace lx) := by
  apply get_next_token_elim lx (fun r => r = read_string (skip_whitespace lx))
  · intro h0; omega
  · intro ty hmem; have := two_char_table_first hmem; omega
  · intro ty hmem _; have := one_char_table_first hmem; omega
  · intro _; rfl
  · intro hdig; rw [isdigit_iff] at hdig; omega
  · intro hal; rw [isalpha_iff] at hal; omega
  · intro _ _ _ _ h39 _ _; exact absurd h h39

/-- The driver on a state in which whitespace skipping reaches a digit. -/
theorem get_next_token_skip_num (lx : Lexer)
    (h : isdigit (skip_whitespace lx).current_char = true) :
    get_next_token lx = read_number (skip_whitespace lx) := by
  have hd := (isdigit_iff _).1 h
  apply get_next_token_elim lx (fun r => r = read_number (skip_whitespace lx))
  · intro h0; omega
  · intro ty hmem; have := two_char_table_first hmem; omega
  · intro ty hmem _; have := one_char_table_first hmem; omega
  · intro h39; omega
  · intro _; rfl
  · intro hal; rw [isalpha_iff] at hal; omega
  · intro _ _ _ _ _ hnd _; rw [h] at hnd; exact Bool.noConfusion hnd

/-- The driver on a state in which whitespace skipping reaches a letter or an
underscore. -/
theorem get_next_token_skip_id (lx : Lexer)
    (h : isalpha (skip_whitespace lx).current_char = true ∨
      (skip_whitespace lx).current_char = 95) :
    get_next_token lx = read_identifier_or_keyword (skip_whitespace lx) := by
  have hd := h
  rw [isalpha_iff] at hd
  apply get_next_token_elim lx (fun r => r = read_identifier_or_keyword (skip_whitespace lx))
  · intro h0; omega
  · intro ty hmem; have := two_char_table_first hmem; omega
  · intro ty hmem _; have := one_char_table_first hmem; omega
  · intro h39; omega
  · intro hdig; rw [isdigit_iff] at hdig; omega
  · intro _; rfl
  · intro _ _ _ _ _ _ hna; exact absurd h hna

/-- The driver on a state in which whitespace skipping reaches a character
that starts no token. -/
theorem get_next_token_skip_err (lx : Lexer)
    (hc : (skip_whitespace lx).current_char ≠ 0)
    (hno2 : ∀ ty2, ((skip_whitespace lx).current_char, peek (skip_whitespace lx) 1, ty2) ∉
      two_char_table)
    (hno1 : ∀ ty, ((skip_whitespace lx).current_char, ty) ∉ one_char_table)
    (h39 : (skip_whitespace lx).current_char ≠ 39)
    (hd : isdigit (skip_whitespace lx).current_char = false)
    (hal : ¬ (isalpha (skip_whitespace lx).current_char = true ∨
      (skip_whitespace lx).current_char = 95)) :
    get_next_token lx =
      (create_token TOKEN_ERROR (some (bytes "Caractere desconhecido"))
          (skip_whitespace lx).line (skip_whitespace lx).column,
        advance (skip_whitespace lx)) := by
  apply get_next_token_elim lx (fun r => r =
    (create_token TOKEN_ERROR (some (bytes "Caractere desconhecido"))
        (skip_whitespace lx).line (skip_whitespace lx).column,
      advance (skip_whitespace lx)))
  · intro h0; exact absurd h0 hc
  · intro ty hmem; exact absurd hmem (hno2 ty)
  · intro ty hmem _; exact absurd hmem (hno1 ty)
  · intro h; exact absurd h h39
  · intro h; rw [hd] at h; exact Bool.noConfusion h
  · intro h; exact absurd h hal
  · intro _ _ _ _ _ _ _; rfl

theorem two_char_spellings_of_mem {a b : Nat} {ty : TokenType}
    (h : (a, b, ty) ∈ two_char_table) : (a, b) ∈ two_char_spellings :=
  List.mem_map_of_mem (fun t => (t.1, t.2.1)) h

theorem cstr_singleton {c : Nat} (h : c ≠ 0) : cstr [c] = [c] := by
  simp [cstr, List.takeWhile_cons, h]

theorem one_char_table_mem_bytes {a : Nat} {ty : TokenType} (h : (a, ty) ∈ one_char_table) :
    a ∈ bytes "=;()\x7b\x7d,+-*/<>" := by
  rcases one_char_table_cases h with h | h | h | h | h | h | h | h | h | h | h | h | h <;>
    (rw [h.1]; decide)

/-! ### Maximal runs and the cursor -/

theorem getD_drop (s : List Nat) (p i : Nat) : (s.drop p).getD i 0 = s.getD (p + i) 0 := by
  rw [List.getD_eq_getElem?_getD, List.getD_eq_getElem?_getD, List.getElem?_drop]

theorem takeWhile_getD_all (p : Nat → Bool) :
    ∀ (l : List Nat) (i : Nat), i < (l.takeWhile p).length →
      i < l.length ∧ p (l.getD i 0) = true := by
  intro l
  induction l with
  | nil => intro i hi; simp at hi
  | cons a t ih =>
    intro i hi
    by_cases ha : p a = true
    · rw [List.takeWhile_cons_of_pos ha] at hi
      cases i with
      | zero => exact ⟨Nat.succ_pos _, ha⟩
      | succ j =>
        have := ih j (by simpa using hi)
        exact ⟨by simp only [List.length_cons]; omega, by simpa using this.2⟩
    · rw [List.takeWhile_cons_of_neg ha] at hi
      simp at hi

theorem takeWhile_getD_stop (p : Nat → Bool) (hp0 : p 0 = false) :
    ∀ l : List Nat, p (l.getD (l.takeWhile p).length 0) = false := by
  intro l
  induction l with
  | nil => simpa using hp0
  | cons a t ih =>
    by_cases ha : p a = true
    · rw [List.takeWhile_cons_of_pos ha]
      simpa using ih
    · rw [List.takeWhile_cons_of_neg ha]
      simpa using ha

theorem take_length_takeWhile (p : Nat → Bool) (l : List Nat) :
    l.take (l.takeWhile p).length = l.takeWhile p :=
  (List.prefix_iff_eq_take.1 (List.takeWhile_prefix p)).symm

theorem sync_charAtPos {s : List Nat} {lx : Lexer} (h : Sync s lx) : CharAtPos lx := by
  obtain ⟨h1, h2, h3, h4⟩ := h
  unfold CharAtPos
  rw [h4, h1, h2]
  split_ifs with hlt
  · rfl
  · exact getD_zero_of_le s _ (by omega)

theorem ident_char_ne_zero {c : Nat} (h : ident_char c = true) : c ≠ 0 :=
  (isalnum_ne_zero h).1

/-- The loop of `read_identifier_or_keyword` started on a position of the
source `s` stops right after the longest run of identifier characters. -/
theorem advance_while_ident_run {s : List Nat} {lx : Lexer} (h : Sync s lx) :
    advance_while (fun c => isalnum c || c == 95) (loop_fuel lx) lx =
      jump lx (ident_run s lx.current_pos).length ∧
    (jump lx (ident_run s lx.current_pos).length).current_char =
      s.getD (lx.current_pos + (ident_run s lx.current_pos).length) 0 := by
  have hcp := sync_charAtPos h
  obtain ⟨h1, h2, h3, h4⟩ := h
  have hall := takeWhile_getD_all ident_char (s.drop lx.current_pos)
  have hstop := takeWhile_getD_stop ident_char (by decide) (s.drop lx.current_pos)
  have hchar : (jump lx (ident_run s lx.current_pos).length).current_char =
      s.getD (lx.current_pos + (ident_run s lx.current_pos).length) 0 := by
    simp only [jump, h1, h2]
    split_ifs with hlt
    · rfl
    · exact (getD_zero_of_le s _ (by omega)).symm
  refine ⟨?_, hchar⟩
  apply advance_while_run (fun c => isalnum c || c == 95) _ (loop_fuel lx) lx
  · have := List.Sublist.length_le (List.takeWhile_prefix ident_char
      (l := s.drop lx.current_pos)).sublist
    rw [List.length_drop] at this
    unfold ident_run loop_fuel
    rw [h2]
    omega
  · exact hcp
  · intro i hi
    obtain ⟨hi1, hi2⟩ := hall i hi
    rw [List.length_drop] at hi1
    rw [getD_drop] at hi2
    rw [h1, h2]
    exact ⟨by omega, ident_char_ne_zero hi2, hi2⟩
  · rw [hchar, ← getD_drop]
    intro hc
    have h2 : ident_char ((s.drop lx.current_pos).getD
      (ident_run s lx.current_pos).length 0) = true := hc.2
    rw [ident_run, hstop] at h2
    exact Bool.noConfusion h2

theorem ident_run_nul_free (s : List Nat) (p : Nat) : 0 ∉ ident_run s p := by
  intro h0
  have := List.mem_takeWhile_imp h0
  exact Bool.noConfusion this

theorem advance_while_column (cond : Nat → Bool) (fuel : Nat) (lx : Lexer) :
    (advance_while cond fuel lx).column + lx.current_pos =
      lx.column + (advance_while cond fuel lx).current_pos :=
  advance_while_induct (P := fun l => l.column + lx.current_pos = lx.column + l.current_pos)
    cond
    (fun l hl _ _ => by
      have hl2 : l.column + lx.current_pos = lx.column + l.current_pos := hl
      show (advance l).column + lx.current_pos = lx.column + (advance l).current_pos
      rw [advance_column, advance_current_pos]
      omega) fuel lx rfl

/-- `read_string` never touches `line` and moves `column` in step with
`current_pos`. -/
theorem read_string_line_column (lx : Lexer) :
    (read_string lx).2.line = lx.line ∧
    (read_string lx).2.column + lx.current_pos =
      lx.column + (read_string lx).2.current_pos := by
  have hl := advance_while_line (fun c => c != 39) (loop_fuel (advance lx)) (advance lx)
  have hc := advance_while_column (fun c => c != 39) (loop_fuel (advance lx)) (advance lx)
  rw [advance_line] at hl
  rw [advance_column, advance_current_pos] at hc
  unfold read_string
  dsimp only
  split_ifs
  · dsimp only
    exact ⟨hl, by omega⟩
  · dsimp only
    simp only [advance_line, advance_column, advance_current_pos]
    exact ⟨hl, by omega⟩

/-! ### The text of a token is the consumed piece of the source -/

theorem substring_nul_free (s : List Nat) (a b : Nat) (hs : 0 ∉ s) : 0 ∉ substring s a b :=
  fun h => hs (List.mem_of_mem_drop (List.mem_of_mem_take h))

theorem substring_length (s : List Nat) (a b : Nat) (hab : a ≤ b) (hb : b ≤ s.length) :
    (substring s a b).length = b - a := by
  unfold substring
  rw [List.length_take, List.length_drop]
  omega

theorem substring_one (s : List Nat) (p : Nat) (h : p < s.length) :
    substring s p (p + 1) = [s.getD p 0] := by
  unfold substring
  rw [List.drop_eq_getElem_cons h, List.getD_eq_getElem _ _ h]
  have e : p + 1 - p = 1 := by omega
  rw [e]
  rfl

theorem substring_two (s : List Nat) (p : Nat) (h : p + 1 < s.length) :
    substring s p (p + 2) = [s.getD p 0, s.getD (p + 1) 0] := by
  unfold substring
  have h0 : p < s.length := by omega
  rw [List.drop_eq_getElem_cons h0, List.drop_eq_getElem_cons h, List.getD_eq_getElem _ _ h0,
    List.getD_eq_getElem _ _ h]
  have e : p + 2 - p = 2 := by omega
  rw [e]
  rfl

theorem substring_quoted (s : List Nat) (p q : Nat) (hpq : p + 1 ≤ q) (hq : q < s.length) :
    substring s p (q + 1) = [s.getD p 0] ++ strncpy s (p + 1) (q - (p + 1)) ++ [s.getD q 0] := by
  unfold substring strncpy
  have h0 : p < s.length := by omega
  have e : q + 1 - p = (q - (p + 1)) + 1 + 1 := by omega
  have hidx : p + 1 + (q - (p + 1)) = q := by omega
  rw [List.drop_eq_getElem_cons h0, e, List.take_succ_cons, List.take_succ,
    List.getElem?_drop, hidx, List.getElem?_eq_getElem hq, List.getD_eq_getElem _ _ h0,
    List.getD_eq_getElem _ _ hq]
  rfl

theorem sync_peek {s : List Nat} {lx : Lexer} (h : Sync s lx) (hp : peek lx 1 ≠ 0) :
    lx.current_pos + 1 < s.length ∧ peek lx 1 = s.getD (lx.current_pos + 1) 0 := by
  have hlt := peek_ne_zero_lt hp
  refine ⟨by rw [← h.2.1]; exact hlt, ?_⟩
  unfold peek
  rw [if_pos hlt, h.1]

theorem advance_while_source_code (cond : Nat → Bool) (fuel : Nat) (lx : Lexer) :
    (advance_while cond fuel lx).source_code = lx.source_code :=
  advance_while_induct (P := fun l => l.source_code = lx.source_code) cond
    (fun l hl _ _ => by
      have hl2 : l.source_code = lx.source_code := hl
      show (advance l).source_code = lx.source_code
      rw [advance_source_code, hl2]) fuel lx rfl

/-- The text of `read_number` is the piece of the source it consumed. -/
theorem read_number_text {s : List Nat} {lx : Lexer} (hs : 0 ∉ s) (h : Sync s lx) :
    (read_number lx).1.value =
      some (substring s lx.current_pos (read_number lx).2.current_pos) ∧
    lx.current_pos ≤ (read_number lx).2.current_pos ∧
    (read_number lx).2.current_pos ≤ s.length := by
  have h1 := sync_advance_while isdigit (loop_fuel lx) h
  have h2 := advance_while_pos_le isdigit (loop_fuel lx) lx lx (le_refl _)
  refine ⟨?_, h2, h1.2.2.1⟩
  unfold read_number
  simp only [create_token, Option.map_some', h1.1]
  exact congrArg some (cstr_of_nul_free _ (substring_nul_free s _ _ hs))

/-- The text of `read_identifier_or_keyword` is the piece of the source it
consumed. -/
theorem read_identifier_text {s : List Nat} {lx : Lexer} (hs : 0 ∉ s) (h : Sync s lx) :
    (read_identifier_or_keyword lx).1.value =
      some (substring s lx.current_pos (read_identifier_or_keyword lx).2.current_pos) ∧
    lx.current_pos ≤ (read_identifier_or_keyword lx).2.current_pos ∧
    (read_identifier_or_keyword lx).2.current_pos ≤ s.length := by
  have h1 := sync_advance_while (fun c => isalnum c || c == 95) (loop_fuel lx) h
  have h2 := advance_while_pos_le (fun c => isalnum c || c == 95) (loop_fuel lx) lx lx
    (le_refl _)
  refine ⟨?_, h2, h1.2.2.1⟩
  unfold read_identifier_or_keyword
  simp only [create_token, Option.map_some', h1.1]
  have e := cstr_of_nul_free _ (substring_nul_free s lx.current_pos
    (advance_while (fun c => isalnum c || c == 95) (loop_fuel lx) lx).current_pos hs)
  unfold substring at e
  unfold strncpy
  rw [e, e]
  rfl

/-- The text of a STRING_LITERAL token of `read_string` is the piece of the
source it consumed, quotes included. -/
theorem read_string_text {s : List Nat} {lx : Lexer} (hs : 0 ∉ s) (h : Sync s lx)
    (h39 : lx.current_char = 39) (hty : (read_string lx).1.type ≠ TOKEN_ERROR) :
    (read_string lx).1.value =
      some (substring s lx.current_pos (read_string lx).2.current_pos) ∧
    lx.current_pos ≤ (read_string lx).2.current_pos ∧
    (read_string lx).2.current_pos ≤ s.length := by
  have ha := sync_advance h (by omega)
  have h1 := sync_advance_while (fun c => c != 39) (loop_fuel (advance lx)) ha
  have h2 := advance_while_pos_le (fun c => c != 39) (loop_fuel (advance lx)) (advance lx)
    (advance lx) (le_refl _)
  have hexit := advance_while_exit (fun c => c != 39) (advance lx)
  rw [advance_current_pos] at h2
  revert hty
  unfold read_string
  dsimp only
  split_ifs with h0
  · intro hty
    exact absurd rfl hty
  · intro _
    have hq := sync_pos_lt h1 h0
    have hc39 : (advance_while (fun c => c != 39) (loop_fuel (advance lx))
        (advance lx)).current_char = 39 := by
      by_contra hne
      exact hexit ⟨h0, by simpa using hne⟩
    have hsq : s.getD (advance_while (fun c => c != 39) (loop_fuel (advance lx))
        (advance lx)).current_pos 0 = 39 := by rw [← h1.2.2.2]; exact hc39
    have hsp : s.getD lx.current_pos 0 = 39 := by rw [← h.2.2.2]; exact h39
    refine ⟨?_, by simp only [advance_current_pos]; omega,
      by simp only [advance_current_pos]; omega⟩
    simp only [create_token, Option.map_some', advance_current_pos, h1.1]
    rw [substring_quoted s _ _ h2 hq, hsq, hsp]
    have e := substring_nul_free s lx.current_pos
      ((advance_while (fun c => c != 39) (loop_fuel (advance lx)) (advance lx)).current_pos + 1)
      hs
    rw [substring_quoted s _ _ h2 hq, hsq, hsp] at e
    exact congrArg some (cstr_of_nul_free _ e)

/-- The text of every token other than ERROR and EOF is the piece of the
source between the offset reached by whitespace skipping and the offset at
return. -/
theorem get_next_token_text {s : List Nat} {lx : Lexer} (hs : 0 ∉ s) (h : Sync s lx)
    (h1 : (get_next_token lx).1.type ≠ TOKEN_ERROR)
    (h2 : (get_next_token lx).1.type ≠ TOKEN_EOF) :
    (get_next_token lx).1.value =
      some (substring s (skip_whitespace lx).current_pos
        (get_next_token lx).2.current_pos) ∧
    (skip_whitespace lx).current_pos ≤ (get_next_token lx).2.current_pos ∧
    (get_next_token lx).2.current_pos ≤ s.length := by
  have ha := sync_skip_whitespace h
  revert h1 h2
  apply get_next_token_elim lx (fun r => r.1.type ≠ TOKEN_ERROR → r.1.type ≠ TOKEN_EOF →
    r.1.value = some (substring s (skip_whitespace lx).current_pos r.2.current_pos) ∧
    (skip_whitespace lx).current_pos ≤ r.2.current_pos ∧ r.2.current_pos ≤ s.length)
  · intro _ _ h2
    exact absurd rfl h2
  · intro ty hmem _ _
    obtain ⟨hc, hp, -⟩ := two_char_table_ne_zero hmem
    obtain ⟨hlt, hpk⟩ := sync_peek ha hp
    refine ⟨?_, by simp only [advance_current_pos]; omega,
      by simp only [advance_current_pos]; omega⟩
    simp only [create_token, Option.map_some', advance_current_pos]
    rw [hpk, ha.2.2.2, ← substring_two s _ hlt]
    exact congrArg some (cstr_of_nul_free _ (substring_nul_free s _ _ hs))
  · intro ty hmem _ _ _
    have hlt := sync_pos_lt ha (one_char_table_ne_zero hmem).1
    refine ⟨?_, by simp only [advance_current_pos]; omega,
      by simp only [advance_current_pos]; omega⟩
    simp only [create_token, Option.map_some', advance_current_pos]
    rw [ha.2.2.2, ← substring_one s _ hlt]
    exact congrArg some (cstr_of_nul_free _ (substring_nul_free s _ _ hs))
  · intro h39 hty _
    exact read_string_text hs ha h39 hty
  · intro _ _ _
    exact read_number_text hs ha
  · intro _ _ _
    exact read_identifier_text hs ha
  · intro _ _ _ _ _ _ _ hty _
    exact absurd rfl hty

/-! ### Source reads stay in bounds -/

/-- The character `advance` installs is the byte at the index it reads, and
the sentinel when it reads nothing. -/
theorem advance_current_char_reads (lx : Lexer) :
    (advance lx).current_char =
      ((advance_reads lx).map (fun i => lx.source_code.getD i 0)).headD 0 := by
  rw [advance_current_char]
  unfold advance_reads
  split_ifs <;> rfl

/-- The character `peek` returns is the byte at the index it reads, and the
sentinel when it reads nothing. -/
theorem peek_reads_value (lx : Lexer) (offset : Nat) :
    peek lx offset = ((peek_reads lx offset).map (fun i => lx.source_code.getD i 0)).headD 0 := by
  unfold peek peek_reads
  dsimp only
  split_ifs <;> rfl

theorem advance_reads_lt (lx : Lexer) (i : Nat) (h : i ∈ advance_reads lx) :
    i < lx.source_len := by
  unfold advance_reads at h
  split_ifs at h with hlt
  · rw [List.mem_singleton] at h; omega
  · simp at h

theorem peek_reads_lt (lx : Lexer) (offset i : Nat) (h : i ∈ peek_reads lx offset) :
    i < lx.source_len := by
  unfold peek_reads at h
  split_ifs at h with hlt
  · rw [List.mem_singleton] at h; omega
  · simp at h

theorem advance_while_source_len (cond : Nat → Bool) (fuel : Nat) (lx : Lexer) :
    (advance_while cond fuel lx).source_len = lx.source_len :=
  advance_while_induct (P := fun l => l.source_len = lx.source_len) cond
    (fun l hl _ _ => by
      have hl2 : l.source_len = lx.source_len := hl
      show (advance l).source_len = lx.source_len
      rw [advance_source_len, hl2]) fuel lx rfl

theorem skip_whitespace_source_len (lx : Lexer) :
    (skip_whitespace lx).source_len = lx.source_len :=
  skip_whitespace_loop_induct (P := fun l => l.source_len = lx.source_len)
    (fun l hl _ _ => by
      have hl2 : l.source_len = lx.source_len := hl
      show (skip_body l).source_len = lx.source_len
      rw [skip_body_source_len, hl2]) _ lx rfl

theorem advance_while_reads_lt (cond : Nat → Bool) (i : Nat) :
    ∀ (fuel : Nat) (lx : Lexer), i ∈ advance_while_reads cond fuel lx → i < lx.source_len := by
  intro fuel
  induction fuel with
  | zero => intro lx h; simp [advance_while_reads] at h
  | succ f ih =>
    intro lx h
    unfold advance_while_reads at h
    split_ifs at h with hc
    · rcases List.mem_append.1 h with h | h
      · exact advance_reads_lt lx i h
      · have := ih (advance lx) h
        rw [advance_source_len] at this
        exact this
    · simp at h

theorem skip_whitespace_loop_reads_lt (i : Nat) :
    ∀ (fuel : Nat) (lx : Lexer), i ∈ skip_whitespace_loop_reads fuel lx →
      i < lx.source_len := by
  intro fuel
  induction fuel with
  | zero => intro lx h; simp [skip_whitespace_loop_reads] at h
  | succ f ih =>
    intro lx h
    unfold skip_whitespace_loop_reads at h
    split_ifs at h with hc h10
    · rcases List.mem_append.1 h with h | h
      · exact advance_reads_lt _ i h
      · have := ih _ h
        rw [advance_source_len] at this
        exact this
    · rcases List.mem_append.1 h with h | h
      · exact advance_reads_lt _ i h
      · have := ih _ h
        rw [advance_source_len] at this
        exact this
    · simp at h

theorem read_string_reads_lt (lx : Lexer) (i : Nat) (h : i ∈ read_string_reads lx) :
    i < lx.source_len := by
  unfold read_string_reads at h
  dsimp only at h
  rcases List.mem_append.1 h with h | h
  · rcases List.mem_append.1 h with h | h
    · exact advance_reads_lt lx i h
    · have := advance_while_reads_lt _ i _ _ h
      rw [advance_source_len] at this
      exact this
  · split_ifs at h
    · simp at h
    · have := advance_reads_lt _ i h
      rw [advance_while_source_len, advance_source_len] at this
      exact this

/-- Every index read by `advance` and `peek` during a call of the driver is
below `source_len`. -/
theorem get_next_token_reads_lt (lx : Lexer) (i : Nat) (h : i ∈ get_next_token_reads lx) :
    i < lx.source_len := by
  have hsl := skip_whitespace_source_len lx
  unfold get_next_token_reads at h
  dsimp only at h
  by_cases h0 : lx.current_char ≠ 0
  · rw [if_pos h0] at h
    rcases List.mem_append.1 h with h | h
    · exact skip_whitespace_loop_reads_lt i _ lx h
    · by_cases h1 : (skip_whitespace lx).current_char = 0
      · rw [if_pos h1] at h
        simp at h
      · rw [if_neg h1] at h
        rw [← hsl]
        rcases List.mem_append.1 h with h | h
        · exact peek_reads_lt _ 1 i h
        · split_ifs at h
          · rcases List.mem_append.1 h with h | h
            · exact advance_reads_lt _ i h
            · have := advance_reads_lt _ i h
              rw [advance_source_len] at this
              exact this
          · exact advance_reads_lt _ i h
          · exact read_string_reads_lt _ i h
          · exact advance_while_reads_lt _ i _ _ h
          · exact advance_while_reads_lt _ i _ _ h
          · exact advance_reads_lt _ i h
  · rw [if_neg h0] at h
    simp at h

/-! ### Leading whitespace -/

/-- The result of the driver depends on the state only through the state
reached by whitespace skipping. -/
theorem get_next_token_congr (l1 l2 : Lexer) (h : skip_whitespace l1 = skip_whitespace l2) :
    get_next_token l1 = get_next_token l2 := by
  apply get_next_token_elim l1 (fun r => r = get_next_token l2) <;> rw [h]
  · intro h0; exact (get_next_token_skip_eof l2 h0).symm
  · intro ty hmem; exact (get_next_token_skip_two l2 ty hmem).symm
  · intro ty hmem hno2; exact (get_next_token_skip_one l2 ty hmem hno2).symm
  · intro h39; exact (get_next_token_skip_str l2 h39).symm
  · intro hd; exact (get_next_token_skip_num l2 hd).symm
  · intro hal; exact (get_next_token_skip_id l2 hal).symm
  · intro hc _ hno2 hno1 h39 hd hal
    exact (get_next_token_skip_err l2 hc hno2 hno1 h39 hd hal).symm

theorem tokens_congr (l1 l2 : Lexer) (h : get_next_token l1 = get_next_token l2) (k : Nat) :
    tokens k l1 = tokens k l2 := by
  cases k with
  | zero => rfl
  | succ k => simp only [tokens, h]

/-- One iteration of the `skip_whitespace` loop does not change what
`skip_whitespace` returns. -/
theorem skip_whitespace_step {S : List Nat} {lx : Lexer} (h : Sync S lx)
    (hc : lx.current_char ≠ 0) (hsp : isspace lx.current_char = true) :
    skip_whitespace lx = skip_whitespace (skip_body lx) := by
  have hlt := sync_pos_lt h hc
  rw [← h.2.1] at hlt
  have e : lx.source_len - lx.current_pos =
      (skip_body lx).source_len - (skip_body lx).current_pos + 1 := by
    rw [skip_body_source_len, skip_body_current_pos]; omega
  show skip_whitespace_loop (lx.source_len - lx.current_pos + 1) lx =
    skip_whitespace_loop ((skip_body lx).source_len - (skip_body lx).current_pos + 1)
      (skip_body lx)
  rw [skip_whitespace_loop_succ, if_pos ⟨hc, hsp⟩, e]

/-- Skipping over `n` whitespace characters: some state `n` characters further
gives the same result of `skip_whitespace`. -/
theorem skip_whitespace_run (S : List Nat) :
    ∀ (n : Nat) (lx : Lexer), Sync S lx →
      (∀ i : Nat, i < n → isspace (S.getD (lx.current_pos + i) 0) = true) →
      ∃ lx2 : Lexer, skip_whitespace lx = skip_whitespace lx2 ∧ Sync S lx2 ∧
        lx2.current_pos = lx.current_pos + n := by
  intro n
  induction n with
  | zero => intro lx h _; exact ⟨lx, rfl, h, rfl⟩
  | succ n ih =>
    intro lx h hw
    have h0 := hw 0 (Nat.succ_pos n)
    rw [Nat.add_zero, ← h.2.2.2] at h0
    have hc : lx.current_char ≠ 0 := by
      intro hz
      rw [hz, isspace_zero] at h0
      exact Bool.noConfusion h0
    obtain ⟨lx2, h1, h2, h3⟩ := ih (skip_body lx) (sync_skip_body h hc) (by
      intro i hi
      have := hw (i + 1) (by omega)
      rw [skip_body_current_pos]
      have e : lx.current_pos + 1 + i = lx.current_pos + (i + 1) := by omega
      rw [e]
      exact this)
    refine ⟨lx2, ?_, h2, ?_⟩
    · rw [skip_whitespace_step h hc h0, h1]
    · rw [h3, skip_body_current_pos]; omega

theorem shifted_advance {w s : List Nat} {lx1 lx2 : Lexer} (h : Shifted w s lx1 lx2) :
    Shifted w s (advance lx1) (advance lx2) := by
  obtain ⟨h1, h2, h3, h4, h5, h6⟩ := h
  refine ⟨h1, h2, h3, h4, by simp only [advance_current_pos]; omega, ?_⟩
  rw [advance_current_char, advance_current_char, h1, h2, h3, h4, h5]
  have e : w.length + lx2.current_pos + 1 = w.length + (lx2.current_pos + 1) := by omega
  rw [e, getD_append_pre]
  by_cases hlt : lx2.current_pos + 1 < s.length
  · rw [if_pos hlt, if_pos (by omega)]
  · rw [if_neg hlt, if_neg (by omega)]

theorem shifted_skip_body {w s : List Nat} {lx1 lx2 : Lexer} (h : Shifted w s lx1 lx2) :
    Shifted w s (skip_body lx1) (skip_body lx2) := by
  have ha := shifted_advance h
  obtain ⟨h1, h2, h3, h4, h5, h6⟩ := h
  obtain ⟨_, _, _, _, a5, a6⟩ := ha
  refine ⟨by rw [skip_body_source_code, h1], by rw [skip_body_source_code, h2],
    by rw [skip_body_source_len, h3], by rw [skip_body_source_len, h4], ?_, ?_⟩
  · rw [skip_body_current_pos, skip_body_current_pos, h5]; omega
  · rw [skip_body_current_char, skip_body_current_char]
    rw [advance_current_char, advance_current_char] at a6
    exact a6

theorem shifted_loop_fuel {w s : List Nat} {lx1 lx2 : Lexer} (h : Shifted w s lx1 lx2) :
    loop_fuel lx1 = loop_fuel lx2 := by
  obtain ⟨_, _, h3, h4, h5, _⟩ := h
  unfold loop_fuel
  rw [h3, h4, h5]
  omega

theorem shifted_advance_while {w s : List Nat} (cond : Nat → Bool) :
    ∀ (fuel : Nat) (lx1 lx2 : Lexer), Shifted w s lx1 lx2 →
      Shifted w s (advance_while cond fuel lx1) (advance_while cond fuel lx2) := by
  intro fuel
  induction fuel with
  | zero => intro lx1 lx2 h; exact h
  | succ f ih =>
    intro lx1 lx2 h
    rw [advance_while_succ, advance_while_succ, h.2.2.2.2.2]
    split_ifs with hc
    · exact ih _ _ (shifted_advance h)
    · exact h

theorem shifted_skip_whitespace {w s : List Nat} {lx1 lx2 : Lexer}
    (h : Shifted w s lx1 lx2) :
    Shifted w s (skip_whitespace lx1) (skip_whitespace lx2) := by
  have key : ∀ (fuel : Nat) (l1 l2 : Lexer), Shifted w s l1 l2 →
      Shifted w s (skip_whitespace_loop fuel l1) (skip_whitespace_loop fuel l2) := by
    intro fuel
    induction fuel with
    | zero => intro l1 l2 hl; exact hl
    | succ f ih =>
      intro l1 l2 hl
      rw [skip_whitespace_loop_succ, skip_whitespace_loop_succ, hl.2.2.2.2.2]
      split_ifs with hc
      · exact ih _ _ (shifted_skip_body hl)
      · exact hl
  unfold skip_whitespace
  rw [shifted_loop_fuel h]
  exact key _ lx1 lx2 h

theorem shifted_peek {w s : List Nat} {lx1 lx2 : Lexer} (h : Shifted w s lx1 lx2) :
    peek lx1 1 = peek lx2 1 := by
  have := (shifted_advance h).2.2.2.2.2
  rw [advance_current_char_eq_peek, advance_current_char_eq_peek] at this
  exact this

theorem shifted_strncpy {w s : List Nat} {a1 a2 b1 b2 : Lexer} (ha : Shifted w s a1 a2)
    (hb : Shifted w s b1 b2) :
    strncpy b1.source_code a1.current_pos (b1.current_pos - a1.current_pos) =
      strncpy b2.source_code a2.current_pos (b2.current_pos - a2.current_pos) := by
  unfold strncpy
  rw [hb.1, hb.2.1, ha.2.2.2.2.1, hb.2.2.2.2.1, List.drop_append]
  have e : w.length + b2.current_pos - (w.length + a2.current_pos) =
      b2.current_pos - a2.current_pos := by omega
  rw [e]

theorem shifted_read_number {w s : List Nat} {a1 a2 : Lexer} (h : Shifted w s a1 a2) :
    kind_text (read_number a1).1 = kind_text (read_number a2).1 ∧
    Shifted w s (read_number a1).2 (read_number a2).2 := by
  have hb := shifted_advance_while isdigit (loop_fuel a2) a1 a2 h
  unfold read_number
  rw [shifted_loop_fuel h]
  refine ⟨?_, hb⟩
  simp only [kind_text, create_token, shifted_strncpy h hb]

theorem shifted_read_identifier {w s : List Nat} {a1 a2 : Lexer} (h : Shifted w s a1 a2) :
    kind_text (read_identifier_or_keyword a1).1 = kind_text (read_identifier_or_keyword a2).1 ∧
    Shifted w s (read_identifier_or_keyword a1).2 (read_identifier_or_keyword a2).2 := by
  have hb := shifted_advance_while (fun c => isalnum c || c == 95) (loop_fuel a2) a1 a2 h
  unfold read_identifier_or_keyword
  rw [shifted_loop_fuel h]
  refine ⟨?_, hb⟩
  simp only [kind_text, create_token, shifted_strncpy h hb]

theorem shifted_read_string {w s : List Nat} {a1 a2 : Lexer} (h : Shifted w s a1 a2) :
    kind_text (read_string a1).1 = kind_text (read_string a2).1 ∧
    Shifted w s (read_string a1).2 (read_string a2).2 := by
  have ha := shifted_advance h
  have hb := shifted_advance_while (fun c => c != 39) (loop_fuel (advance a2)) _ _ ha
  unfold read_string
  dsimp only
  rw [shifted_loop_fuel ha, hb.2.2.2.2.2]
  split_ifs with h0
  · exact ⟨rfl, hb⟩
  · refine ⟨?_, shifted_advance hb⟩
    simp only [kind_text, create_token, shifted_strncpy ha hb]

/-- One call of the driver on two shifted states returns tokens of the same
kind and text and leaves shifted states. -/
theorem shifted_get_next_token {w s : List Nat} {lx1 lx2 : Lexer} (h : Shifted w s lx1 lx2) :
    kind_text (get_next_token lx1).1 = kind_text (get_next_token lx2).1 ∧
    Shifted w s (get_next_token lx1).2 (get_next_token lx2).2 := by
  have ha := shifted_skip_whitespace h
  have hchar := ha.2.2.2.2.2
  have hpeek := shifted_peek ha
  apply get_next_token_elim lx1 (fun r => kind_text r.1 = kind_text (get_next_token lx2).1 ∧
    Shifted w s r.2 (get_next_token lx2).2)
  · intro h0
    rw [get_next_token_skip_eof lx2 (by rw [← hchar]; exact h0)]
    exact ⟨rfl, ha⟩
  · intro ty hmem
    rw [get_next_token_skip_two lx2 ty (by rw [← hchar, ← hpeek]; exact hmem)]
    refine ⟨?_, shifted_advance (shifted_advance ha)⟩
    simp only [kind_text, create_token, hchar, hpeek]
  · intro ty hmem hno2
    rw [get_next_token_skip_one lx2 ty (by rw [← hchar]; exact hmem)
      (by rw [← hchar, ← hpeek]; exact hno2)]
    refine ⟨?_, shifted_advance ha⟩
    simp only [kind_text, create_token, hchar]
  · intro h39
    rw [get_next_token_skip_str lx2 (by rw [← hchar]; exact h39)]
    exact shifted_read_string ha
  · intro hd
    rw [get_next_token_skip_num lx2 (by rw [← hchar]; exact hd)]
    exact shifted_read_number ha
  · intro hal
    rw [get_next_token_skip_id lx2 (by rw [← hchar]; exact hal)]
    exact shifted_read_identifier ha
  · intro hc _ hno2 hno1 h39 hd hal
    rw [get_next_token_skip_err lx2 (by rw [← hchar]; exact hc)
      (by rw [← hchar, ← hpeek]; exact hno2) (by rw [← hchar]; exact hno1)
      (by rw [← hchar]; exact h39) (by rw [← hchar]; exact hd) (by rw [← hchar]; exact hal)]
    exact ⟨rfl, shifted_advance ha⟩

theorem shifted_tokens {w s : List Nat} (k : Nat) :
    ∀ (lx1 lx2 : Lexer), Shifted w s lx1 lx2 →
      (tokens k lx1).map kind_text = (tokens k lx2).map kind_text := by
  induction k with
  | zero => intro _ _ _; rfl
  | succ k ih =>
    intro lx1 lx2 h
    obtain ⟨h1, h2⟩ := shifted_get_next_token h
    simp only [tokens, List.map_cons, h1, ih _ _ h2]

/-! ## 13. The claims -/

/-- C1: the calls of `get_next_token` on
`init_lexer("func main ( ) { int x ; x = 10 ; }")` yield, in order, FUNC "func",
IDENTIFIER "main", LPAREN, RPAREN, LBRACE, INT, IDENTIFIER "x", SEMICOLON,
IDENTIFIER "x", ASSIGN, NUMBER "10", SEMICOLON, RBRACE, EOF (kind and text of
each token), and none of the fourteen tokens is an ERROR token. -/
theorem C1_program_token_stream :
    (tokens 14 (init_lexer (bytes "func main ( ) \x7b int x ; x = 10 ; \x7d"))).map kind_text =
      [(TOKEN_FUNC, some (bytes "func")), (TOKEN_IDENTIFIER, some (bytes "main")),
       (TOKEN_LPAREN, some (bytes "(")), (TOKEN_RPAREN, some (bytes ")")),
       (TOKEN_LBRACE, some (bytes "\x7b")), (TOKEN_INT, some (bytes "int")),
       (TOKEN_IDENTIFIER, some (bytes "x")), (TOKEN_SEMICOLON, some (bytes ";")),
       (TOKEN_IDENTIFIER, some (bytes "x")), (TOKEN_ASSIGN, some (bytes "=")),
       (TOKEN_NUMBER, some (bytes "10")), (TOKEN_SEMICOLON, some (bytes ";")),
       (TOKEN_RBRACE, some (bytes "\x7d")), (TOKEN_EOF, none)] ∧
    ∀ t ∈ tokens 14 (init_lexer (bytes "func main ( ) \x7b int x ; x = 10 ; \x7d")),
      t.type ≠ TOKEN_ERROR := by
  decide

/-- C2: for a NUL-free source `s`, in every lexer state reached from
`init_lexer s` by calls of `get_next_token`, a call made while
`current_pos < length s` strictly increases `current_pos`; and the token
stream has an EOF token at some index `k ≤ length s` with no EOF token before
it, that is, at most `length s` non-EOF tokens precede the first EOF. -/
theorem C2_progress_and_termination (s : List Nat) (hs : 0 ∉ s) :
    (∀ k : Nat, (lex_steps k (init_lexer s)).current_pos < s.length →
      (lex_steps k (init_lexer s)).current_pos <
        (get_next_token (lex_steps k (init_lexer s))).2.current_pos) ∧
    (∃ k : Nat, k ≤ s.length ∧ (nth_token k (init_lexer s)).type = TOKEN_EOF ∧
      ∀ j : Nat, j < k → (nth_token j (init_lexer s)).type ≠ TOKEN_EOF) := by
  have hsync : ∀ k, Sync s (lex_steps k (init_lexer s)) :=
    fun k => sync_lex_steps k (sync_init_lexer s hs)
  refine ⟨fun k hlt => get_next_token_progress _ (sync_char_ne_zero (hsync k) hs hlt), ?_⟩
  have hcount : ∀ j : Nat, (∀ i : Nat, i < j → (nth_token i (init_lexer s)).type ≠ TOKEN_EOF) →
      j ≤ (lex_steps j (init_lexer s)).current_pos := by
    intro j
    induction j with
    | zero => intro _; exact Nat.zero_le _
    | succ j ih =>
      intro hne
      have hj := ih (fun i hi => hne i (Nat.lt_succ_of_lt hi))
      have hc : (lex_steps j (init_lexer s)).current_char ≠ 0 := by
        intro h0
        apply hne j (Nat.lt_succ_self j)
        unfold nth_token
        rw [get_next_token_at_end _ h0]
      have := get_next_token_progress _ hc
      rw [lex_steps_succ]
      omega
  have hex : ∃ k : Nat, (nth_token k (init_lexer s)).type = TOKEN_EOF := by
    by_contra hno
    have hno2 : ∀ i : Nat, (nth_token i (init_lexer s)).type ≠ TOKEN_EOF :=
      fun i hi => hno ⟨i, hi⟩
    have h1 := hcount (s.length + 1) (fun i _ => hno2 i)
    have h2 := (hsync (s.length + 1)).2.2.1
    omega
  refine ⟨Nat.find hex, ?_, Nat.find_spec hex, fun j hj => Nat.find_min hex hj⟩
  by_contra hgt
  have h1 := hcount (s.length + 1) (fun i hi => Nat.find_min hex (by omega))
  have h2 := (hsync (s.length + 1)).2.2.1
  omega

/-- Witness of C2 on the source `"a b"`. -/
theorem C2_progress_and_termination_witness :
    0 ∉ bytes "a b" ∧
    ((∀ k : Nat, (lex_steps k (init_lexer (bytes "a b"))).current_pos < (bytes "a b").length →
      (lex_steps k (init_lexer (bytes "a b"))).current_pos <
        (get_next_token (lex_steps k (init_lexer (bytes "a b")))).2.current_pos) ∧
    (∃ k : Nat, k ≤ (bytes "a b").length ∧
      (nth_token k (init_lexer (bytes "a b"))).type = TOKEN_EOF ∧
      ∀ j : Nat, j < k → (nth_token j (init_lexer (bytes "a b"))).type ≠ TOKEN_EOF)) :=
  ⟨by decide, C2_progress_and_termination (bytes "a b") (by decide)⟩

/-- C3: in a lexer state in which `get_next_token` has just returned an EOF
token, a further call returns an EOF token with no text and the same line and
column and leaves the whole lexer state unchanged; hence every later call
returns that same EOF token. -/
theorem C3_eof_is_stable (lx : Lexer) (h : (get_next_token lx).1.type = TOKEN_EOF) :
    get_next_token (get_next_token lx).2 =
      (⟨TOKEN_EOF, none, (get_next_token lx).1.line, (get_next_token lx).1.column⟩,
        (get_next_token lx).2) ∧
    ∀ k : Nat, lex_steps k (get_next_token lx).2 = (get_next_token lx).2 ∧
      nth_token k (get_next_token lx).2 =
        ⟨TOKEN_EOF, none, (get_next_token lx).1.line, (get_next_token lx).1.column⟩ := by
  obtain ⟨h0, htok⟩ := get_next_token_eof lx h
  have hline : (get_next_token lx).1.line = (get_next_token lx).2.line := by rw [htok]
  have hcol : (get_next_token lx).1.column = (get_next_token lx).2.column := by rw [htok]
  have hnext := get_next_token_at_end _ h0
  rw [← hline, ← hcol] at hnext
  have hsteps : ∀ k : Nat, lex_steps k (get_next_token lx).2 = (get_next_token lx).2 := by
    intro k
    induction k with
    | zero => rfl
    | succ k ih => rw [lex_steps_succ, ih, hnext]
  refine ⟨hnext, fun k => ⟨hsteps k, ?_⟩⟩
  unfold nth_token
  rw [hsteps k, hnext]

/-- Witness of C3 on the state reached by scanning the blank source `" "`. -/
theorem C3_eof_is_stable_witness :
    (get_next_token (init_lexer (bytes " "))).1.type = TOKEN_EOF ∧
    get_next_token (get_next_token (init_lexer (bytes " "))).2 =
      (⟨TOKEN_EOF, none, 1, 2⟩, (get_next_token (init_lexer (bytes " "))).2) :=
  ⟨by decide, (C3_eof_is_stable (init_lexer (bytes " ")) (by decide)).1⟩

/-- C4: for a source `w` made only of whitespace characters (the empty source
included), the first call of `get_next_token` on `init_lexer w` returns EOF
with no text, at line `1 +` the number of `'\n'` in `w` and at column `1 +` the
number of characters after the last `'\n'` of `w` (`1 + length w` when `w` has
no `'\n'`), and leaves `current_pos = length w`. -/
theorem C4_whitespace_only (w : List Nat) (hw : ∀ c ∈ w, isspace c = true) :
    (get_next_token (init_lexer w)).1 =
      ⟨TOKEN_EOF, none, 1 + w.count 10, 1 + chars_after_last_newline w⟩ ∧
    (get_next_token (init_lexer w)).2.current_pos = w.length := by
  have hnul := nul_free_of_isspace w hw
  have htr := tracked_skip_whitespace (tracked_init_lexer w hnul)
  have hexit := skip_whitespace_exit (init_lexer w)
  have hpos : (skip_whitespace (init_lexer w)).current_pos = w.length := by
    by_contra hne
    have hlt : (skip_whitespace (init_lexer w)).current_pos < w.length :=
      Nat.lt_of_le_of_ne htr.1.2.2.1 hne
    apply hexit
    refine ⟨sync_char_ne_zero htr.1 hnul hlt, ?_⟩
    rw [htr.1.2.2.2]
    exact hw _ (getD_mem_of_lt w _ hlt)
  have hchar : (skip_whitespace (init_lexer w)).current_char = 0 := by
    rw [htr.1.2.2.2, hpos]
    exact getD_zero_of_le w _ (le_refl _)
  have hline : (skip_whitespace (init_lexer w)).line = 1 + w.count 10 := by
    rw [htr.2.1, hpos, spec_line, List.take_length]
  have hcol : (skip_whitespace (init_lexer w)).column = 1 + chars_after_last_newline w := by
    rw [htr.2.2, hpos, spec_column_length]
  have hres : get_next_token (init_lexer w) =
      (create_token TOKEN_EOF none (skip_whitespace (init_lexer w)).line
        (skip_whitespace (init_lexer w)).column, skip_whitespace (init_lexer w)) := by
    by_cases h0 : (init_lexer w).current_char = 0
    · rw [get_next_token_at_end _ h0,
        skip_whitespace_id (init_lexer w) (by simp [h0])]
      rfl
    · unfold get_next_token
      rw [if_pos h0]
      dsimp only
      rw [if_pos hchar]
  rw [hres, hline, hcol]
  exact ⟨rfl, hpos⟩

/-- Witness of C4 on the source `" \n\t"`. -/
theorem C4_whitespace_only_witness :
    (∀ c ∈ bytes " \n\t", isspace c = true) ∧
    (get_next_token (init_lexer (bytes " \n\t"))).1 = ⟨TOKEN_EOF, none, 2, 2⟩ ∧
    (get_next_token (init_lexer (bytes " \n\t"))).2.current_pos = 3 :=
  ⟨by decide, C4_whitespace_only (bytes " \n\t") (by decide)⟩

/-- C5: for each reserved word `k` (func, if, else, while, break, int, char),
scanning the source `k` yields one token of the matching keyword kind with
text `k`, then EOF; and for every character `c` that is alphanumeric or an
underscore, scanning `k` followed by `c` yields one IDENTIFIER token whose
text is the whole source, then EOF.  In particular `"iffy"` is scanned as
IDENTIFIER `"iffy"`, then EOF. -/
theorem C5_keywords_and_extensions (k : List Nat) (ty : TokenType)
    (hk : (k, ty) ∈ keyword_table) :
    (tokens 2 (init_lexer k)).map kind_text = [(ty, some k), (TOKEN_EOF, none)] ∧
    (∀ c : Nat, isalnum c = true ∨ c = 95 →
      (tokens 2 (init_lexer (k ++ [c]))).map kind_text =
        [(TOKEN_IDENTIFIER, some (k ++ [c])), (TOKEN_EOF, none)]) ∧
    (tokens 2 (init_lexer (bytes "iffy"))).map kind_text =
      [(TOKEN_IDENTIFIER, some (bytes "iffy")), (TOKEN_EOF, none)] := by
  refine ⟨?_, ?_, by decide⟩
  · rcases keyword_table_cases hk with h | h | h | h | h | h | h <;> obtain ⟨rfl, rfl⟩ := h <;>
      decide
  · intro c hc
    obtain ⟨_, h2, h3, h4⟩ := keyword_table_ext hk c
    have hid : ∀ x ∈ k ++ [c], isalnum x = true ∨ x = 95 := by
      intro x hx
      rcases List.mem_append.1 hx with hx | hx
      · exact Or.inl (h4 x hx)
      · rw [List.mem_singleton] at hx; rw [hx]; exact hc
    rw [ident_source_tokens (k ++ [c]) (Or.inl h3) hid, h2]

/-- Witness of C5 on the reserved word `if`. -/
theorem C5_keywords_and_extensions_witness :
    (bytes "if", TOKEN_IF) ∈ keyword_table ∧
    (tokens 2 (init_lexer (bytes "if"))).map kind_text =
      [(TOKEN_IF, some (bytes "if")), (TOKEN_EOF, none)] :=
  ⟨by decide, (C5_keywords_and_extensions (bytes "if") TOKEN_IF (by decide)).1⟩

/-- C6: for a non-empty string `d` of decimal digits and a `rest` that is
empty or begins with a non-digit character, `get_next_token` on
`init_lexer (d ++ rest)` returns one NUMBER token with text `d` at line 1,
column 1 and leaves `current_pos = length d`, the cursor being on the first
character of `rest` (on the sentinel when `rest` is empty). -/
theorem C6_number_token (d rest : List Nat) (hne : d ≠ [])
    (hdig : ∀ c ∈ d, isdigit c = true)
    (hrest : rest = [] ∨ ∃ c t, rest = c :: t ∧ isdigit c = false) :
    (get_next_token (init_lexer (d ++ rest))).1 = ⟨TOKEN_NUMBER, some d, 1, 1⟩ ∧
    (get_next_token (init_lexer (d ++ rest))).2.current_pos = d.length ∧
    (get_next_token (init_lexer (d ++ rest))).2.current_char = rest.getD 0 0 := by
  have hr : isdigit (rest.getD 0 0) = false := by
    rcases hrest with h | ⟨c, t, h, hc⟩
    · rw [h]; rfl
    · rw [h]; exact hc
  obtain ⟨h1, h2⟩ := read_number_run d rest hdig hr
  have hfirst : isdigit (init_lexer (d ++ rest)).current_char = true := by
    cases d with
    | nil => exact absurd rfl hne
    | cons c t => exact hdig c (List.mem_cons_self c t)
  rw [get_next_token_digit _ hfirst, h1]
  exact ⟨rfl, by simp [jump, Lexer2.init_lexer], h2⟩

/-- Witness of C6 on the source `"123abc"`: NUMBER `"123"`, cursor on `a`. -/
theorem C6_number_token_witness :
    (get_next_token (init_lexer (bytes "123" ++ bytes "abc"))).1 =
      ⟨TOKEN_NUMBER, some (bytes "123"), 1, 1⟩ ∧
    (get_next_token (init_lexer (bytes "123" ++ bytes "abc"))).2.current_pos = 3 ∧
    (get_next_token (init_lexer (bytes "123" ++ bytes "abc"))).2.current_char = 97 :=
  C6_number_token (bytes "123") (bytes "abc") (by decide) (by decide)
    (Or.inr ⟨97, [98, 99], by decide, by decide⟩)

/-- C7: in a lexer state whose current character and next character spell one
of `==`, `!=`, `&&`, `||`, `<=`, `>=`, `get_next_token` returns a single token
of kind EQ, NE, AND, OR, LE, GE respectively with that two-character text (at
the line and column of the cursor) and advances `current_pos` by exactly 2; and
the source `"<="` yields LE, then EOF. -/
theorem C7_two_char_operators (lx : Lexer) (a b : Nat) (ty : TokenType)
    (hmem : (a, b, ty) ∈ two_char_table) (ha : lx.current_char = a) (hb : peek lx 1 = b) :
    (get_next_token lx).1 = ⟨ty, some [a, b], lx.line, lx.column⟩ ∧
    (get_next_token lx).2.current_pos = lx.current_pos + 2 ∧
    (tokens 2 (init_lexer (bytes "<="))).map kind_text =
      [(TOKEN_LE, some (bytes "<=")), (TOKEN_EOF, none)] := by
  have hfirst := two_char_table_first hmem
  have hid : skip_whitespace lx = lx :=
    skip_whitespace_id lx (fun hc => by have := (isspace_iff _).1 hc.2; omega)
  have hmain : (get_next_token lx).1 = ⟨ty, some [a, b], lx.line, lx.column⟩ ∧
      (get_next_token lx).2.current_pos = lx.current_pos + 2 := by
    apply get_next_token_elim lx (fun r => r.1 = ⟨ty, some [a, b], lx.line, lx.column⟩ ∧
      r.2.current_pos = lx.current_pos + 2) <;> rw [hid]
    · intro h0; omega
    · intro ty2 hmem2
      rw [ha, hb] at hmem2 ⊢
      have hty : ty2 = ty := by
        rcases two_char_table_cases hmem with h | h | h | h | h | h <;>
          rcases two_char_table_cases hmem2 with h2 | h2 | h2 | h2 | h2 | h2 <;>
          first
            | (exfalso; omega)
            | (rw [h.2.2, h2.2.2])
      have hcs : cstr [a, b] = [a, b] := by
        obtain ⟨h1, h2, -⟩ := two_char_table_ne_zero hmem
        simp [cstr, List.takeWhile_cons, h1, h2]
      rw [hty]
      exact ⟨by simp [create_token, hcs], rfl⟩
    · intro ty1 _ hno2
      rw [ha, hb] at hno2
      exact absurd hmem (hno2 ty)
    · intro h39; omega
    · intro hdig; rw [isdigit_iff] at hdig; omega
    · intro hal; rw [isalpha_iff] at hal; omega
    · intro _ _ hno2 _ _ _ _
      rw [ha, hb] at hno2
      exact absurd hmem (hno2 ty)
  exact ⟨hmain.1, hmain.2, by decide⟩

/-- Witness of C7 on the initial state of the source `"<=1"`. -/
theorem C7_two_char_operators_witness :
    (60, 61, TOKEN_LE) ∈ two_char_table ∧
    (get_next_token (init_lexer (bytes "<=1"))).1 = ⟨TOKEN_LE, some [60, 61], 1, 1⟩ ∧
    (get_next_token (init_lexer (bytes "<=1"))).2.current_pos = 2 :=
  ⟨by decide,
    (C7_two_char_operators (init_lexer (bytes "<=1")) 60 61 TOKEN_LE (by decide) rfl rfl).1,
    (C7_two_char_operators (init_lexer (bytes "<=1")) 60 61 TOKEN_LE (by decide) rfl rfl).2.1⟩

/-- C8: for a string `c` with no single quote and no NUL and any `rest`,
`get_next_token` on `init_lexer ("'" ++ c ++ "'" ++ rest)` returns one
STRING_LITERAL token whose text is `"'" ++ c ++ "'"`, both quotes included
(reported at line 1, column 1), and leaves `current_pos = length c + 2`, the
cursor being on the first character of `rest` (the sentinel if there is
none). -/
theorem C8_string_literal (c rest : List Nat) (hq : 39 ∉ c) (hn : 0 ∉ c) :
    (get_next_token (init_lexer ([39] ++ c ++ [39] ++ rest))).1 =
      ⟨TOKEN_STRING_LITERAL, some ([39] ++ c ++ [39]), 1, 1⟩ ∧
    (get_next_token (init_lexer ([39] ++ c ++ [39] ++ rest))).2.current_pos = c.length + 2 ∧
    (get_next_token (init_lexer ([39] ++ c ++ [39] ++ rest))).2.current_char =
      rest.getD 0 0 := by
  have hc : ∀ x ∈ c, x ≠ 0 ∧ x ≠ 39 :=
    fun x hx => ⟨fun h => hn (h ▸ hx), fun h => hq (h ▸ hx)⟩
  have hsrc : [39] ++ c ++ [39] ++ rest = [39] ++ c ++ (39 :: rest) := by simp
  obtain ⟨h1, h2⟩ := read_string_scan c (39 :: rest) hc (Or.inr rfl)
  have h39 : (jump (advance (init_lexer ([39] ++ c ++ 39 :: rest))) c.length).current_char =
      39 := h2
  rw [hsrc, get_next_token_quote _ rfl]
  unfold read_string
  simp only [h1]
  rw [if_neg (by rw [h39]; decide)]
  have hnul : 0 ∉ [39] ++ c ++ [39] := by
    simp only [List.mem_append, List.mem_singleton, not_or]
    exact ⟨⟨by decide, hn⟩, by decide⟩
  have hlen : strlen ([39] ++ c ++ (39 :: rest)) = c.length + 2 + strlen rest := by
    rw [← hsrc, strlen_append _ rest hnul]
    simp only [List.length_append, List.length_singleton]
    omega
  refine ⟨?_, ?_, ?_⟩
  · simp only [jump_current_pos, jump_source_code, advance_source_code, advance_current_pos,
      advance_line, jump_line]
    have e : 0 + 1 + c.length - (0 + 1) = c.length := by omega
    have e1 : strncpy ([39] ++ c ++ 39 :: rest) (0 + 1) c.length = c := strncpy_middle c _
    simp only [Lexer2.init_lexer, e, e1, create_token, Option.map_some',
      cstr_of_nul_free _ hnul]
  · simp only [advance_current_pos, jump_current_pos, Lexer2.init_lexer]
    omega
  · rw [advance_current_char]
    simp only [jump_current_pos, advance_current_pos, jump, advance_source_len,
      advance_source_code, Lexer2.init_lexer, hlen]
    have e : 0 + 1 + c.length + 1 = ([39] ++ c ++ [39]).length + 0 := by
      have := List.length_append ([39] ++ c) [39]
      have := List.length_append [39] c
      simp only [List.length_singleton] at *
      omega
    rw [e, ← hsrc, getD_append_pre]
    split_ifs with hlt
    · rfl
    · exact (getD_zero_of_strlen_zero rest (by simp at hlt; omega)).symm

/-- Witness of C8 on the source `"'abc' x"`. -/
theorem C8_string_literal_witness :
    39 ∉ bytes "abc" ∧ 0 ∉ bytes "abc" ∧
    (get_next_token (init_lexer ([39] ++ bytes "abc" ++ [39] ++ bytes " x"))).1 =
      ⟨TOKEN_STRING_LITERAL, some ([39] ++ bytes "abc" ++ [39]), 1, 1⟩ :=
  ⟨by decide, by decide, (C8_string_literal (bytes "abc") (bytes " x") (by decide)
    (by decide)).1⟩

/-- C9: for a string `c` with no single quote and no NUL, scanning the source
`"'" ++ c` (an opening quote that is never closed) yields one ERROR token with
the text `"String nao terminada"`, at line 1, column 1 (the position of the
opening quote), leaves the cursor at end of input (`current_pos` is the length
of the source, `current_char` the sentinel), and the next call returns EOF. -/
theorem C9_unterminated_string (c : List Nat) (hq : 39 ∉ c) (hn : 0 ∉ c) :
    (get_next_token (init_lexer ([39] ++ c))).1 =
      ⟨TOKEN_ERROR, some (bytes "String nao terminada"), 1, 1⟩ ∧
    (get_next_token (init_lexer ([39] ++ c))).2.current_pos = ([39] ++ c).length ∧
    (get_next_token (init_lexer ([39] ++ c))).2.current_char = 0 ∧
    (nth_token 1 (init_lexer ([39] ++ c))).type = TOKEN_EOF := by
  have hc : ∀ x ∈ c, x ≠ 0 ∧ x ≠ 39 :=
    fun x hx => ⟨fun h => hn (h ▸ hx), fun h => hq (h ▸ hx)⟩
  obtain ⟨h1, h2⟩ := read_string_scan c [] hc (Or.inl rfl)
  rw [List.append_nil] at h1 h2
  replace h2 : (jump (advance (init_lexer ([39] ++ c))) c.length).current_char = 0 := h2
  have hres : get_next_token (init_lexer ([39] ++ c)) =
      (⟨TOKEN_ERROR, some (bytes "String nao terminada"), 1, 1⟩,
        jump (advance (init_lexer ([39] ++ c))) c.length) := by
    rw [get_next_token_quote _ rfl]
    unfold read_string
    simp only [h1]
    rw [if_pos h2]
    rfl
  have hnth : nth_token 1 (init_lexer ([39] ++ c)) =
      (get_next_token (get_next_token (init_lexer ([39] ++ c))).2).1 := rfl
  rw [hnth, hres]
  refine ⟨rfl, ?_, h2, ?_⟩
  · simp [jump, Lexer2.advance, Lexer2.init_lexer]
    omega
  · simp only
    rw [get_next_token_at_end _ h2]

/-- Witness of C9 on the source `"'abc"`. -/
theorem C9_unterminated_string_witness :
    39 ∉ bytes "abc" ∧ 0 ∉ bytes "abc" ∧
    (get_next_token (init_lexer ([39] ++ bytes "abc"))).1 =
      ⟨TOKEN_ERROR, some (bytes "String nao terminada"), 1, 1⟩ ∧
    (get_next_token (init_lexer ([39] ++ bytes "abc"))).2.current_pos = 4 :=
  ⟨by decide, by decide, (C9_unterminated_string (bytes "abc") (by decide) (by decide)).1,
    (C9_unterminated_string (bytes "abc") (by decide) (by decide)).2.1⟩

/-- C10: for a NUL-free source `s` without single quotes, every token
returned by the successive calls of `get_next_token` on `init_lexer s` (EOF
included) reports the 1-based position of its first character: its line is
one more than the number of `'\n'` before its start offset, and its column is
the start offset minus the offset of the last `'\n'` before it (the start
offset plus one when there is none).  For `"a\nb"` the token for `b` reports
line 2, column 1. -/
theorem C10_token_positions (s : List Nat) (hs : 0 ∉ s) (hq : 39 ∉ s) (k : Nat) :
    (nth_token k (init_lexer s)).line =
      spec_line s (token_start (lex_steps k (init_lexer s))) ∧
    (nth_token k (init_lexer s)).column =
      spec_column s (token_start (lex_steps k (init_lexer s))) ∧
    nth_token 1 (init_lexer (bytes "a\nb")) = ⟨TOKEN_IDENTIFIER, some (bytes "b"), 2, 1⟩ := by
  have htr : Tracked s (skip_whitespace (lex_steps k (init_lexer s))) :=
    tracked_skip_whitespace (tracked_lex_steps hq k (tracked_init_lexer s hs))
  obtain ⟨h1, h2⟩ := get_next_token_position (lex_steps k (init_lexer s))
  unfold nth_token token_start
  rw [h1, h2]
  exact ⟨htr.2.1, htr.2.2, by decide⟩

/-- Witness of C10 on the source `"a\nb"`, second token. -/
theorem C10_token_positions_witness :
    0 ∉ bytes "a\nb" ∧ 39 ∉ bytes "a\nb" ∧
    (nth_token 1 (init_lexer (bytes "a\nb"))).line =
      spec_line (bytes "a\nb") (token_start (lex_steps 1 (init_lexer (bytes "a\nb")))) ∧
    (nth_token 1 (init_lexer (bytes "a\nb"))).column =
      spec_column (bytes "a\nb") (token_start (lex_steps 1 (init_lexer (bytes "a\nb")))) :=
  ⟨by decide, by decide, (C10_token_positions (bytes "a\nb") (by decide) (by decide) 1).1,
    (C10_token_positions (bytes "a\nb") (by decide) (by decide) 1).2.1⟩

/-- C11: when, after whitespace skipping, the current character can start no
token (it is not NUL, not one of `= ; ( ) { } , + - * / < >`, not a quote, not
a digit, not a letter or underscore, and forms no two-character operator with
the next character, which includes a lone `!`, `&` or `|`; that it is not
whitespace is what whitespace skipping ensures), `get_next_token` returns an ERROR token with the text
`"Caractere desconhecido"` and the line and column of that character and
advances `current_pos` by exactly 1; the next call goes on scanning: `"@a"`
yields ERROR, IDENTIFIER `"a"`, EOF and `"!a"` yields ERROR, IDENTIFIER `"a"`,
EOF. -/
theorem C11_unknown_character (lx : Lexer)
    (hnul : (skip_whitespace lx).current_char ≠ 0)
    (hop : (skip_whitespace lx).current_char ∉ bytes "=;()\x7b\x7d,+-*/<>")
    (hq : (skip_whitespace lx).current_char ≠ 39)
    (hd : isdigit (skip_whitespace lx).current_char = false)
    (hal : isalpha (skip_whitespace lx).current_char = false)
    (hun : (skip_whitespace lx).current_char ≠ 95)
    (htwo : ((skip_whitespace lx).current_char, peek (skip_whitespace lx) 1) ∉
      two_char_spellings) :
    (get_next_token lx).1 =
      ⟨TOKEN_ERROR, some (bytes "Caractere desconhecido"), (skip_whitespace lx).line,
        (skip_whitespace lx).column⟩ ∧
    (get_next_token lx).2 = advance (skip_whitespace lx) ∧
    (get_next_token lx).2.current_pos = (skip_whitespace lx).current_pos + 1 ∧
    (tokens 3 (init_lexer (bytes "@a"))).map kind_text =
      [(TOKEN_ERROR, some (bytes "Caractere desconhecido")),
       (TOKEN_IDENTIFIER, some (bytes "a")), (TOKEN_EOF, none)] ∧
    (tokens 3 (init_lexer (bytes "!a"))).map kind_text =
      [(TOKEN_ERROR, some (bytes "Caractere desconhecido")),
       (TOKEN_IDENTIFIER, some (bytes "a")), (TOKEN_EOF, none)] := by
  have hres := get_next_token_skip_err lx hnul
    (fun ty hmem => htwo (two_char_spellings_of_mem hmem))
    (fun ty hmem => hop (one_char_table_mem_bytes hmem)) hq hd
    (fun h => by
      rcases h with h | h
      · rw [hal] at h; exact Bool.noConfusion h
      · exact hun h)
  rw [hres]
  exact ⟨rfl, rfl, rfl, by decide, by decide⟩

/-- Witness of C11 on the source `" @a"`: the ERROR token is reported at
line 1, column 2 and the cursor moves from offset 1 to offset 2. -/
theorem C11_unknown_character_witness :
    (get_next_token (init_lexer (bytes " @a"))).1 =
      ⟨TOKEN_ERROR, some (bytes "Caractere desconhecido"), 1, 2⟩ ∧
    (get_next_token (init_lexer (bytes " @a"))).2.current_pos = 2 :=
  ⟨(C11_unknown_character (init_lexer (bytes " @a")) (by decide) (by decide) (by decide)
      (by decide) (by decide) (by decide) (by decide)).1,
    (C11_unknown_character (init_lexer (bytes " @a")) (by decide) (by decide) (by decide)
      (by decide) (by decide) (by decide) (by decide)).2.2.1⟩

/-- C12: `get_keyword_type t` is FUNC, IF, ELSE, WHILE, BREAK, INT or CHAR
exactly when `t` is `"func"`, `"if"`, `"else"`, `"while"`, `"break"`, `"int"` or
`"char"` respectively, byte for byte, and IDENTIFIER for every other `t`;
the proper prefix `"whil"`, the extension `"integer"` and the case variants
`"IF"` and `"Func"` are IDENTIFIER. -/
theorem C12_keyword_resolution (t : List Nat) :
    (get_keyword_type t = TOKEN_FUNC ↔ t = bytes "func") ∧
    (get_keyword_type t = TOKEN_IF ↔ t = bytes "if") ∧
    (get_keyword_type t = TOKEN_ELSE ↔ t = bytes "else") ∧
    (get_keyword_type t = TOKEN_WHILE ↔ t = bytes "while") ∧
    (get_keyword_type t = TOKEN_BREAK ↔ t = bytes "break") ∧
    (get_keyword_type t = TOKEN_INT ↔ t = bytes "int") ∧
    (get_keyword_type t = TOKEN_CHAR ↔ t = bytes "char") ∧
    (get_keyword_type t = TOKEN_IDENTIFIER ↔
      t ∉ [bytes "func", bytes "if", bytes "else", bytes "while", bytes "break",
        bytes "int", bytes "char"]) ∧
    get_keyword_type (bytes "whil") = TOKEN_IDENTIFIER ∧
    get_keyword_type (bytes "integer") = TOKEN_IDENTIFIER ∧
    get_keyword_type (bytes "IF") = TOKEN_IDENTIFIER ∧
    get_keyword_type (bytes "Func") = TOKEN_IDENTIFIER := by
  refine ⟨?_, ?_, ?_, ?_, ?_, ?_, ?_, ?_, by decide, by decide, by decide, by decide⟩ <;>
    unfold get_keyword_type <;>
    split_ifs with h1 h2 h3 h4 h5 h6 h7 <;>
    first
      | (subst h1; decide)
      | (subst h2; decide)
      | (subst h3; decide)
      | (subst h4; decide)
      | (subst h5; decide)
      | (subst h6; decide)
      | (subst h7; decide)
      | simp [h1, h2, h3, h4, h5, h6, h7]

/-- C14: in a lexer state whose current character `c` is one of
`= ; ( ) { } , + - * / < >` and forms no two-character operator with the next
character, `get_next_token` returns the token of kind ASSIGN, SEMICOLON,
LPAREN, RPAREN, LBRACE, RBRACE, COMMA, PLUS, MINUS, MULTIPLY, DIVIDE, LT, GT
respectively, with the one-character text `c` (at the line and column of the
cursor), and advances `current_pos` by exactly 1. -/
theorem C14_one_char_operators (lx : Lexer) (ty : TokenType)
    (hmem : (lx.current_char, ty) ∈ one_char_table)
    (htwo : (lx.current_char, peek lx 1) ∉ two_char_spellings) :
    (get_next_token lx).1 = ⟨ty, some [lx.current_char], lx.line, lx.column⟩ ∧
    (get_next_token lx).2 = advance lx ∧
    (get_next_token lx).2.current_pos = lx.current_pos + 1 := by
  have hfirst := one_char_table_first hmem
  have hid : skip_whitespace lx = lx :=
    skip_whitespace_id lx (fun hc => by have := (isspace_iff _).1 hc.2; omega)
  have hres := get_next_token_skip_one lx ty (by rw [hid]; exact hmem)
    (by rw [hid]; exact fun ty2 hmem2 => htwo (two_char_spellings_of_mem hmem2))
  rw [hid] at hres
  rw [hres]
  refine ⟨?_, rfl, rfl⟩
  simp [create_token, cstr_singleton (one_char_table_ne_zero hmem).1]

/-- Witness of C14 on the initial state of the source `"<1"`. -/
theorem C14_one_char_operators_witness :
    (60, TOKEN_LT) ∈ one_char_table ∧
    (get_next_token (init_lexer (bytes "<1"))).1 = ⟨TOKEN_LT, some [60], 1, 1⟩ ∧
    (get_next_token (init_lexer (bytes "<1"))).2.current_pos = 1 :=
  ⟨by decide,
    (C14_one_char_operators (init_lexer (bytes "<1")) TOKEN_LT (by decide) (by decide)).1,
    (C14_one_char_operators (init_lexer (bytes "<1")) TOKEN_LT (by decide) (by decide)).2.2⟩

/-- C13: in a lexer state on a position of a source `s` whose current
character is a letter or an underscore, `get_next_token` returns the token
whose text is the longest run of alphanumeric-or-underscore characters of `s`
starting at `current_pos` and whose kind is `get_keyword_type` of that text (at
the line and column of the cursor), and leaves the cursor right after the
run, on a character that is the end-of-input sentinel or is neither
alphanumeric nor an underscore. -/
theorem C13_identifier_maximal_munch (s : List Nat) (lx : Lexer) (hsync : Sync s lx)
    (hc : isalpha lx.current_char = true ∨ lx.current_char = 95) :
    (get_next_token lx).1 =
      ⟨get_keyword_type (ident_run s lx.current_pos), some (ident_run s lx.current_pos),
        lx.line, lx.column⟩ ∧
    (get_next_token lx).2.current_pos =
      lx.current_pos + (ident_run s lx.current_pos).length ∧
    (get_next_token lx).2.current_char =
      s.getD (lx.current_pos + (ident_run s lx.current_pos).length) 0 ∧
    ((get_next_token lx).2.current_char = 0 ∨
      (isalnum (get_next_token lx).2.current_char = false ∧
        (get_next_token lx).2.current_char ≠ 95)) := by
  obtain ⟨h1, h2⟩ := advance_while_ident_run hsync
  have hstop := takeWhile_getD_stop ident_char (by decide) (s.drop lx.current_pos)
  rw [getD_drop] at hstop
  have hres : get_next_token lx =
      (⟨get_keyword_type (ident_run s lx.current_pos), some (ident_run s lx.current_pos),
        lx.line, lx.column⟩, jump lx (ident_run s lx.current_pos).length) := by
    rw [get_next_token_alpha lx hc]
    unfold read_identifier_or_keyword
    simp only [h1, jump_current_pos, jump_source_code, jump_line]
    have e : lx.current_pos + (ident_run s lx.current_pos).length - lx.current_pos =
        (ident_run s lx.current_pos).length := by omega
    have e2 : strncpy lx.source_code lx.current_pos (ident_run s lx.current_pos).length =
        ident_run s lx.current_pos := by
      rw [hsync.1]
      exact take_length_takeWhile ident_char (s.drop lx.current_pos)
    simp only [e, e2, create_token, Option.map_some',
      cstr_of_nul_free _ (ident_run_nul_free s lx.current_pos)]
  rw [hres]
  refine ⟨rfl, rfl, h2, Or.inr ?_⟩
  have h3 : ident_char (jump lx (ident_run s lx.current_pos).length).current_char = false := by
    rw [h2]; exact hstop
  simp only [ident_char, Bool.or_eq_false_iff, beq_eq_false_iff_ne] at h3
  exact h3

/-- Witness of C13 on the initial state of the source `"iffy+1"`. -/
theorem C13_identifier_maximal_munch_witness :
    Sync (bytes "iffy+1") (init_lexer (bytes "iffy+1")) ∧
    (get_next_token (init_lexer (bytes "iffy+1"))).1 =
      ⟨TOKEN_IDENTIFIER, some (bytes "iffy"), 1, 1⟩ ∧
    (get_next_token (init_lexer (bytes "iffy+1"))).2.current_pos = 4 :=
  ⟨sync_init_lexer _ (by decide),
    (C13_identifier_maximal_munch (bytes "iffy+1") (init_lexer (bytes "iffy+1"))
      (sync_init_lexer _ (by decide)) (by decide)).1,
    (C13_identifier_maximal_munch (bytes "iffy+1") (init_lexer (bytes "iffy+1"))
      (sync_init_lexer _ (by decide)) (by decide)).2.1⟩

/-- C16 fails on the code: after the first call on the NUL-free source
`"'a\nb' x"` the cursor is at offset 5, which is line 2, column 3 of the
source, while the lexer state says line 1, column 6, because `read_string`
consumes the newline through `advance`, which does not count lines. -/
theorem C16_newline_in_string_not_tracked :
    0 ∉ bytes "'a\nb' x" ∧
    (lex_steps 1 (init_lexer (bytes "'a\nb' x"))).current_pos = 5 ∧
    (lex_steps 1 (init_lexer (bytes "'a\nb' x"))).line = 1 ∧
    (lex_steps 1 (init_lexer (bytes "'a\nb' x"))).column = 6 ∧
    spec_line (bytes "'a\nb' x") 5 = 2 ∧
    spec_column (bytes "'a\nb' x") 5 = 3 := by
  decide

/-- C18 fails on the code: the initial state of the empty source is at end of
input, and `advance` changes it, moving `current_pos` from 0 to 1 and `column`
from 1 to 2. -/
theorem C18_advance_at_end_counterexample :
    (init_lexer []).source_len ≤ (init_lexer []).current_pos ∧
    (init_lexer []).current_char = 0 ∧
    advance (init_lexer []) ≠ init_lexer [] ∧
    (init_lexer []).current_pos = 0 ∧ (advance (init_lexer [])).current_pos = 1 ∧
    (init_lexer []).column = 1 ∧ (advance (init_lexer [])).column = 2 := by
  decide

/-- C18 as amended: in a lexer state at end of input (`current_pos` is at
least `source_len`), `advance` leaves the current character on the sentinel
and leaves `line`, the source and its length unchanged, and it increases
`current_pos` and `column` by one each. -/
theorem C18_advance_at_end (lx : Lexer) (h : lx.source_len ≤ lx.current_pos) :
    (advance lx).current_char = 0 ∧ (advance lx).line = lx.line ∧
    (advance lx).source_code = lx.source_code ∧ (advance lx).source_len = lx.source_len ∧
    (advance lx).current_pos = lx.current_pos + 1 ∧
    (advance lx).column = lx.column + 1 := by
  refine ⟨?_, rfl, rfl, rfl, rfl, rfl⟩
  rw [advance_current_char, if_neg (by omega)]

/-- Witness of the amended C18 on the initial state of the empty source. -/
theorem C18_advance_at_end_witness :
    (init_lexer []).source_len ≤ (init_lexer []).current_pos ∧
    (advance (init_lexer [])).current_char = 0 ∧
    (advance (init_lexer [])).current_pos = 1 :=
  ⟨by decide, (C18_advance_at_end (init_lexer []) (by decide)).1,
    (C18_advance_at_end (init_lexer []) (by decide)).2.2.2.2.1⟩

/-- C19: in a lexer state whose current character is a single quote, the
driver runs `read_string`, which leaves `line` unchanged and increases `column`
by exactly the number of characters it consumes, newlines in the quoted text
included; hence for the source `"'a\nb' x"` the STRING_LITERAL token reports
line 1, column 1 and the IDENTIFIER `x` after it reports line 1, column 7. -/
theorem C19_read_string_keeps_line (lx : Lexer) (h : lx.current_char = 39) :
    get_next_token lx = read_string lx ∧
    (read_string lx).2.line = lx.line ∧
    (read_string lx).2.column =
      lx.column + ((read_string lx).2.current_pos - lx.current_pos) ∧
    tokens 2 (init_lexer (bytes "'a\nb' x")) =
      [⟨TOKEN_STRING_LITERAL, some (bytes "'a\nb'"), 1, 1⟩,
       ⟨TOKEN_IDENTIFIER, some (bytes "x"), 1, 7⟩] := by
  obtain ⟨h1, h2⟩ := read_string_line_column lx
  have h3 := read_string_progress lx
  exact ⟨get_next_token_quote lx h, h1, by omega, by decide⟩

/-- Witness of C19 on the initial state of the source `"'a\nb' x"`: five
characters consumed, line still 1, column 6. -/
theorem C19_read_string_keeps_line_witness :
    (init_lexer (bytes "'a\nb' x")).current_char = 39 ∧
    (read_string (init_lexer (bytes "'a\nb' x"))).2.line =
      (init_lexer (bytes "'a\nb' x")).line ∧
    (read_string (init_lexer (bytes "'a\nb' x"))).2.column =
      (init_lexer (bytes "'a\nb' x")).column +
        ((read_string (init_lexer (bytes "'a\nb' x"))).2.current_pos -
          (init_lexer (bytes "'a\nb' x")).current_pos) :=
  ⟨by decide, (C19_read_string_keeps_line (init_lexer (bytes "'a\nb' x")) (by decide)).2.1,
    (C19_read_string_keeps_line (init_lexer (bytes "'a\nb' x")) (by decide)).2.2.1⟩

/-- C15: for a NUL-free source `s`, every call of `get_next_token` (in a state
reached from `init_lexer s`) that returns a token other than ERROR and EOF
returns as text the substring of `s` from the offset reached by whitespace
skipping to the offset at return, and the cursor has moved over exactly as
many characters as the text has. -/
theorem C15_text_is_consumed_source (s : List Nat) (hs : 0 ∉ s) (k : Nat)
    (h1 : (nth_token k (init_lexer s)).type ≠ TOKEN_ERROR)
    (h2 : (nth_token k (init_lexer s)).type ≠ TOKEN_EOF) :
    (nth_token k (init_lexer s)).value =
      some (substring s (token_start (lex_steps k (init_lexer s)))
        (get_next_token (lex_steps k (init_lexer s))).2.current_pos) ∧
    (get_next_token (lex_steps k (init_lexer s))).2.current_pos =
      token_start (lex_steps k (init_lexer s)) +
        (substring s (token_start (lex_steps k (init_lexer s)))
          (get_next_token (lex_steps k (init_lexer s))).2.current_pos).length := by
  obtain ⟨h3, h4, h5⟩ := get_next_token_text hs (sync_lex_steps k (sync_init_lexer s hs)) h1 h2
  refine ⟨h3, ?_⟩
  unfold token_start
  rw [substring_length s _ _ h4 h5]
  omega

/-- Witness of C15 on the source `"x = 'a b';"`, third token (the string). -/
theorem C15_text_is_consumed_source_witness :
    0 ∉ bytes "x = 'a b';" ∧
    (nth_token 2 (init_lexer (bytes "x = 'a b';"))).type = TOKEN_STRING_LITERAL ∧
    (nth_token 2 (init_lexer (bytes "x = 'a b';"))).value =
      some (substring (bytes "x = 'a b';")
        (token_start (lex_steps 2 (init_lexer (bytes "x = 'a b';"))))
        (get_next_token (lex_steps 2 (init_lexer (bytes "x = 'a b';")))).2.current_pos) :=
  ⟨by decide, by decide,
    (C15_text_is_consumed_source (bytes "x = 'a b';") (by decide) 2 (by decide)
      (by decide)).1⟩

/-- C17: for a NUL-free source `s` of length `n`, every lexer state reached
from `init_lexer s` by calls of `get_next_token` still holds the source `s` with
`source_len = n`, has `current_pos ≤ n`, has `current_char = s[current_pos]` when
`current_pos < n` and the sentinel when `current_pos = n`; and every index at
which `advance` and `peek` read the source during the next call is below `n`,
so that each read is a read of `s` inside its bounds. -/
theorem C17_cursor_in_bounds (s : List Nat) (hs : 0 ∉ s) (k : Nat) :
    (lex_steps k (init_lexer s)).source_code = s ∧
    (lex_steps k (init_lexer s)).source_len = s.length ∧
    (lex_steps k (init_lexer s)).current_pos ≤ s.length ∧
    ((lex_steps k (init_lexer s)).current_pos < s.length →
      s[(lex_steps k (init_lexer s)).current_pos]? =
        some (lex_steps k (init_lexer s)).current_char) ∧
    ((lex_steps k (init_lexer s)).current_pos = s.length →
      (lex_steps k (init_lexer s)).current_char = 0) ∧
    ∀ i ∈ get_next_token_reads (lex_steps k (init_lexer s)),
      i < s.length ∧ ∃ c, s[i]? = some c := by
  have hsync := sync_lex_steps k (sync_init_lexer s hs)
  obtain ⟨h1, h2, h3, h4⟩ := hsync
  refine ⟨h1, h2, h3, ?_, ?_, ?_⟩
  · intro hlt
    rw [h4, List.getD_eq_getElem _ _ hlt, List.getElem?_eq_getElem hlt]
  · intro heq
    rw [h4, heq]
    exact getD_zero_of_le s _ (le_refl _)
  · intro i hi
    have hlt := get_next_token_reads_lt _ i hi
    rw [h2] at hlt
    exact ⟨hlt, s[i], List.getElem?_eq_getElem hlt⟩

/-- Witness of C17 on the source `"a<=1"`, state after one call. -/
theorem C17_cursor_in_bounds_witness :
    0 ∉ bytes "a<=1" ∧
    get_next_token_reads (lex_steps 1 (init_lexer (bytes "a<=1"))) = [2, 2, 3] ∧
    (lex_steps 1 (init_lexer (bytes "a<=1"))).current_pos ≤ (bytes "a<=1").length ∧
    ∀ i ∈ get_next_token_reads (lex_steps 1 (init_lexer (bytes "a<=1"))),
      i < (bytes "a<=1").length ∧ ∃ c, (bytes "a<=1")[i]? = some c :=
  ⟨by decide, by decide, (C17_cursor_in_bounds (bytes "a<=1") (by decide) 1).2.2.1,
    (C17_cursor_in_bounds (bytes "a<=1") (by decide) 1).2.2.2.2.2⟩

/-- C20: for a string `w` of whitespace characters and a NUL-free source `s`,
the calls of `get_next_token` on `init_lexer (w ++ s)` and on `init_lexer s`
return tokens of the same kinds and texts, call after call: any number `k` of
calls gives the same list of (kind, text) pairs, in particular up to and
including the first EOF.  Leading whitespace changes only the positions. -/
theorem C20_leading_whitespace (w s : List Nat) (hw : ∀ c ∈ w, isspace c = true)
    (hs : 0 ∉ s) (k : Nat) :
    (tokens k (init_lexer (w ++ s))).map kind_text =
      (tokens k (init_lexer s)).map kind_text := by
  have hnul : 0 ∉ w ++ s := by
    intro h0
    rcases List.mem_append.1 h0 with h | h
    · exact nul_free_of_isspace w hw h
    · exact hs h
  obtain ⟨lx2, h1, h2, h3⟩ := skip_whitespace_run (w ++ s) w.length (init_lexer (w ++ s))
    (sync_init_lexer _ hnul) (by
      intro i hi
      have e : (init_lexer (w ++ s)).current_pos + i = i := Nat.zero_add i
      rw [e, getD_append_lt w s i hi]
      exact hw _ (getD_mem_of_lt w i hi))
  have hsh : Shifted w s lx2 (init_lexer s) := by
    have hp : lx2.current_pos = w.length := by rw [h3]; exact Nat.zero_add _
    refine ⟨h2.1, rfl, ?_, strlen_of_nul_free s hs, ?_, ?_⟩
    · rw [h2.2.1, List.length_append]
    · rw [hp]; rfl
    · rw [h2.2.2.2, hp]
      have := getD_append_pre w s 0
      rw [Nat.add_zero] at this
      exact this
  rw [tokens_congr _ _ (get_next_token_congr _ _ h1) k]
  exact shifted_tokens k lx2 (init_lexer s) hsh

/-- Witness of C20 on `w = " \n\t"` and `s = "if x"`, three calls. -/
theorem C20_leading_whitespace_witness :
    (∀ c ∈ bytes " \n\t", isspace c = true) ∧ 0 ∉ bytes "if x" ∧
    (tokens 3 (init_lexer (bytes " \n\t" ++ bytes "if x"))).map kind_text =
      (tokens 3 (init_lexer (bytes "if x"))).map kind_text ∧
    (tokens 3 (init_lexer (bytes "if x"))).map kind_text =
      [(TOKEN_IF, some (bytes "if")), (TOKEN_IDENTIFIER, some (bytes "x")),
       (TOKEN_EOF, none)] :=
  ⟨by decide, by decide,
    C20_leading_whitespace (bytes " \n\t") (bytes "if x") (by decide) (by decide) 3,
    by decide⟩

end Lexer2
